import Mathlib

/-!
# Verification of the rgb-analyzer per-tick color pipeline

This file gives a shallow embedding, in Lean 4, of the algorithmic core of the
rgb-analyzer repository and proves (or refutes) the frozen specification claims
about it.  The embedded components are:

* the color-space converter (`rgbToHSV`, `rgbToHSL`, `rgbToXYZ`,
  `rgbToColorTemp`) from `colorConverter.ts`;
* the K-NN classifier with Z-score feature standardization (`FeatureScaler`,
  `KNNClassifier`) from `knnClassifier.ts`;
* the pixel sampler / selection policy (`sampleRegion` plus the filtered /
  unfiltered averaging) from `opencvProcessor.ts`;
* the ROI resolver (`calculateROICanvas`) and the frame-change gate
  (`detectFrameChange`, `detectROIChange`) together with the wall-clock
  throttle of `processFrame` from the camera component.

Modelling conventions:

* JavaScript `number` is modelled by `ℚ` (exact rationals).  Floating point
  literals such as `1e-6` or `0.4124564` are taken at their exact decimal
  value.  `Math.round` is round-half-up (`jsRound`), `Math.floor` is `⌊·⌋`
  (`jsFloor`), the JS remainder `%` truncates toward zero (`jsMod`).
* `Math.sqrt` and `Math.pow(·, 2.4)` are irrational on most inputs, so they
  cannot be executable exact functions on `ℚ`.  They are passed to the
  embedded code as explicit function parameters (`sqrtQ`, `pow24`); each
  theorem that needs a fact about them (non-negativity on non-negative
  arguments, positivity on positive arguments) takes that fact as a
  hypothesis.  Everything else is computed exactly.
* Functions that `throw` in the source return `Except String α`; the thrown
  message strings are kept verbatim.
* Out-of-range array indexing (which yields `undefined`/`NaN` in JS) is
  modelled with `List.getD _ _ 0`; every claim that touches indexed data
  carries the dimension hypotheses under which all indexing is in range, so
  the default value is never observable in a proved statement.
* Division by zero in `ℚ` yields `0` where JS would yield `±Infinity`/`NaN`;
  all divisions reached by the claims are guarded (either by the source's own
  zero tests or by positivity facts proved here).
-/

namespace RGBAnalyzer

/-! ## JavaScript numeric primitives -/

/-- JS `Math.round`: round half toward positive infinity. -/
def jsRound (q : ℚ) : ℤ := ⌊q + 1/2⌋

/-- JS `Math.floor`. -/
def jsFloor (q : ℚ) : ℤ := ⌊q⌋

/-- Truncation toward zero, as used by the JS `%` operator. -/
def jsTrunc (q : ℚ) : ℤ := if 0 ≤ q then ⌊q⌋ else -⌊-q⌋

/-- JS remainder operator `a % b` (sign of the dividend). -/
def jsMod (a b : ℚ) : ℚ := a - b * (jsTrunc (a / b) : ℚ)

theorem jsTrunc_eq_zero {q : ℚ} (h1 : -1 < q) (h2 : q < 1) : jsTrunc q = 0 := by
  unfold jsTrunc
  split
  · exact Int.floor_eq_zero_iff.mpr ⟨by assumption, h2⟩
  · have h0 : 0 < -q := by linarith
    have : ⌊-q⌋ = 0 := Int.floor_eq_zero_iff.mpr ⟨by linarith, by linarith⟩
    omega

theorem jsMod_eq_self {x : ℚ} (h1 : -6 < x) (h2 : x < 6) : jsMod x 6 = x := by
  have h : jsTrunc (x / 6) = 0 := by
    apply jsTrunc_eq_zero
    · linarith [(by linarith : (-1 : ℚ) < x / 6)]
    · linarith [(by linarith : x / 6 < 1)]
  simp [jsMod, h]

theorem jsRound_nonneg {q : ℚ} (h : 0 ≤ q) : 0 ≤ jsRound q := by
  unfold jsRound
  exact Int.floor_nonneg.mpr (by linarith)

theorem jsRound_le {q : ℚ} {n : ℤ} (h : q + 1/2 < (n : ℚ) + 1) : jsRound q ≤ n := by
  unfold jsRound
  have hlt : ⌊q + 1/2⌋ < n + 1 := Int.floor_lt.mpr (by push_cast; linarith)
  omega

theorem jsRound_le_of_le {q : ℚ} {n : ℤ} (h : q ≤ (n : ℚ)) : jsRound q ≤ n := by
  apply jsRound_le; linarith

/-! ## Color space converter (`colorConverter.ts`) -/

/-- `HSVColor`: `h` is `Math.round`ed (an integer), `s`,`v` are rounded to one
decimal (still rationals). -/
structure HSVColor where
  h : ℤ
  s : ℚ
  v : ℚ
  deriving DecidableEq, Repr

structure HSLColor where
  h : ℤ
  s : ℚ
  l : ℚ
  deriving DecidableEq, Repr

structure ColorTempResult where
  kelvin : ℤ
  description : String
  category : String
  deriving DecidableEq, Repr

/-- `Math.max(rNorm, gNorm, bNorm)`. -/
def maxC (rN gN bN : ℚ) : ℚ := max rN (max gN bN)

/-- `Math.min(rNorm, gNorm, bNorm)`. -/
def minC (rN gN bN : ℚ) : ℚ := min rN (min gN bN)

/-- The hue of `rgbToHSV`/`rgbToHSL` before the wrap and the rounding:
`h` as computed by the `if (delta !== 0)` branch ladder of the source
(`0` when `delta === 0`). -/
def hue0 (rN gN bN : ℚ) : ℚ :=
  if maxC rN gN bN - minC rN gN bN ≠ 0 then
    if maxC rN gN bN = rN then
      60 * jsMod ((gN - bN) / (maxC rN gN bN - minC rN gN bN)) 6
    else if maxC rN gN bN = gN then
      60 * ((bN - rN) / (maxC rN gN bN - minC rN gN bN) + 2)
    else
      60 * ((rN - gN) / (maxC rN gN bN - minC rN gN bN) + 4)
  else 0

/-- The hue computation shared verbatim by `rgbToHSV` and `rgbToHSL`
(the source duplicates the same lines in both functions), *before*
`Math.round`: the branch ladder `hue0` followed by `if (h < 0) h += 360`. -/
def hueRaw (rN gN bN : ℚ) : ℚ :=
  if hue0 rN gN bN < 0 then hue0 rN gN bN + 360 else hue0 rN gN bN

/-- `rgbToHSV` from `colorConverter.ts`. -/
def rgbToHSV (r g b : ℚ) : HSVColor :=
  let rN := r / 255
  let gN := g / 255
  let bN := b / 255
  let mx := maxC rN gN bN
  let mn := minC rN gN bN
  let delta := mx - mn
  let s : ℚ := if mx = 0 then 0 else delta / mx * 100
  let v : ℚ := mx * 100
  { h := jsRound (hueRaw rN gN bN)
    s := (jsRound (s * 10) : ℚ) / 10
    v := (jsRound (v * 10) : ℚ) / 10 }

/-- `rgbToHSL` from `colorConverter.ts`. -/
def rgbToHSL (r g b : ℚ) : HSLColor :=
  let rN := r / 255
  let gN := g / 255
  let bN := b / 255
  let mx := maxC rN gN bN
  let mn := minC rN gN bN
  let delta := mx - mn
  let l : ℚ := (mx + mn) / 2
  let s : ℚ := if delta = 0 then 0 else delta / (1 - |2 * l - 1|)
  { h := jsRound (hueRaw rN gN bN)
    s := (jsRound (s * 100 * 10) : ℚ) / 10
    l := (jsRound (l * 100 * 10) : ℚ) / 10 }

structure XYZColor where
  x : ℚ
  y : ℚ
  z : ℚ
  deriving DecidableEq, Repr

/-- sRGB gamma correction of one normalized channel;
`pow24 t` stands for `Math.pow(t, 2.4)`. -/
def gammaCorrect (pow24 : ℚ → ℚ) (c : ℚ) : ℚ :=
  if c > 0.04045 then pow24 ((c + 0.055) / 1.055) else c / 12.92

/-- `rgbToXYZ` from `colorConverter.ts` (sRGB D65 matrix). -/
def rgbToXYZ (pow24 : ℚ → ℚ) (r g b : ℚ) : XYZColor :=
  let rN := gammaCorrect pow24 (r / 255)
  let gN := gammaCorrect pow24 (g / 255)
  let bN := gammaCorrect pow24 (b / 255)
  { x := rN * 0.4124564 + gN * 0.3575761 + bN * 0.1804375
    y := rN * 0.2126729 + gN * 0.7151522 + bN * 0.0721750
    z := rN * 0.0193339 + gN * 0.1191920 + bN * 0.9503041 }

def getColorTempDescription (kelvin : ℤ) : String :=
  if kelvin < 2000 then "極暖光（燭光）"
  else if kelvin < 3000 then "暖光（鎢絲燈）"
  else if kelvin < 3500 then "暖白光"
  else if kelvin < 4500 then "中性白光"
  else if kelvin < 5500 then "自然光"
  else if kelvin < 6500 then "日光"
  else if kelvin < 8000 then "冷白光"
  else if kelvin < 10000 then "冷光（陰天）"
  else "極冷光（藍天）"

def getColorTempCategory (kelvin : ℤ) : String :=
  if kelvin < 3000 then "Warm"
  else if kelvin < 5000 then "Neutral"
  else if kelvin < 6500 then "Cool"
  else "Daylight"

/-- `rgbToColorTemp` from `colorConverter.ts`: pure black is special-cased,
then McCamy's approximation on the CIE chromaticity, clamped to
`[1000, 25000]` K. -/
def rgbToColorTemp (pow24 : ℚ → ℚ) (r g b : ℚ) : ColorTempResult :=
  if r = 0 ∧ g = 0 ∧ b = 0 then
    { kelvin := 0, description := "無光源", category := "None" }
  else
    let xyz := rgbToXYZ pow24 r g b
    let sum := xyz.x + xyz.y + xyz.z
    if sum = 0 then
      { kelvin := 0, description := "無效色彩", category := "Invalid" }
    else
      let xChroma := xyz.x / sum
      let yChroma := xyz.y / sum
      let n := (xChroma - 0.3320) / (0.1858 - yChroma)
      let cct := 449 * n ^ 3 + 3525 * n ^ 2 + 6823.3 * n + 5520.33
      let kelvin := max 1000 (min 25000 (jsRound cct))
      { kelvin := kelvin
        description := getColorTempDescription kelvin
        category := getColorTempCategory kelvin }

/-! ### Range facts about the converter (claim C4) -/

theorem le_maxC_left (rN gN bN : ℚ) : rN ≤ maxC rN gN bN := le_max_left _ _

theorem le_maxC_mid (rN gN bN : ℚ) : gN ≤ maxC rN gN bN :=
  le_trans (le_max_left _ _) (le_max_right _ _)

theorem le_maxC_right (rN gN bN : ℚ) : bN ≤ maxC rN gN bN :=
  le_trans (le_max_right _ _) (le_max_right _ _)

theorem minC_le_left (rN gN bN : ℚ) : minC rN gN bN ≤ rN := min_le_left _ _

theorem minC_le_mid (rN gN bN : ℚ) : minC rN gN bN ≤ gN :=
  le_trans (min_le_right _ _) (min_le_left _ _)

theorem minC_le_right (rN gN bN : ℚ) : minC rN gN bN ≤ bN :=
  le_trans (min_le_right _ _) (min_le_right _ _)

theorem minC_le_maxC (rN gN bN : ℚ) : minC rN gN bN ≤ maxC rN gN bN :=
  le_trans (minC_le_left _ _ _) (le_maxC_left _ _ _)

theorem minC_nonneg {rN gN bN : ℚ} (h1 : 0 ≤ rN) (h2 : 0 ≤ gN) (h3 : 0 ≤ bN) :
    0 ≤ minC rN gN bN := le_min h1 (le_min h2 h3)

theorem maxC_le_one {rN gN bN : ℚ} (h1 : rN ≤ 1) (h2 : gN ≤ 1) (h3 : bN ≤ 1) :
    maxC rN gN bN ≤ 1 := max_le h1 (max_le h2 h3)

theorem maxC_nonneg {rN gN bN : ℚ} (h1 : 0 ≤ rN) :
    0 ≤ maxC rN gN bN := le_trans h1 (le_maxC_left _ _ _)

theorem div_delta_bounds {a d : ℚ} (hd : 0 < d) (h1 : -d ≤ a) (h2 : a ≤ d) :
    -1 ≤ a / d ∧ a / d ≤ 1 := by
  constructor
  · rw [le_div_iff hd]; linarith
  · rw [div_le_one hd]; exact h2

theorem hue0_bounds (rN gN bN : ℚ) : -60 ≤ hue0 rN gN bN ∧ hue0 rN gN bN ≤ 300 := by
  have hr := le_maxC_left rN gN bN
  have hg := le_maxC_mid rN gN bN
  have hb := le_maxC_right rN gN bN
  have hr' := minC_le_left rN gN bN
  have hg' := minC_le_mid rN gN bN
  have hb' := minC_le_right rN gN bN
  unfold hue0
  split
  case isTrue hne =>
    have hpos : 0 < maxC rN gN bN - minC rN gN bN := by
      rcases lt_or_eq_of_le (sub_nonneg.mpr (minC_le_maxC rN gN bN)) with h | h
      · exact h
      · exact absurd h.symm hne
    split
    case isTrue hmr =>
      obtain ⟨hlo, hhi⟩ := div_delta_bounds hpos
        (by linarith : -(maxC rN gN bN - minC rN gN bN) ≤ gN - bN)
        (by linarith : gN - bN ≤ maxC rN gN bN - minC rN gN bN)
      rw [jsMod_eq_self (by linarith) (by linarith)]
      constructor <;> linarith
    case isFalse hmr =>
      split
      case isTrue hmg =>
        obtain ⟨hlo, hhi⟩ := div_delta_bounds hpos
          (by linarith : -(maxC rN gN bN - minC rN gN bN) ≤ bN - rN)
          (by linarith : bN - rN ≤ maxC rN gN bN - minC rN gN bN)
        constructor <;> linarith
      case isFalse hmg =>
        obtain ⟨hlo, hhi⟩ := div_delta_bounds hpos
          (by linarith : -(maxC rN gN bN - minC rN gN bN) ≤ rN - gN)
          (by linarith : rN - gN ≤ maxC rN gN bN - minC rN gN bN)
        constructor <;> linarith
  case isFalse => norm_num

theorem hueRaw_bounds (rN gN bN : ℚ) : 0 ≤ hueRaw rN gN bN ∧ hueRaw rN gN bN < 360 := by
  obtain ⟨h1, h2⟩ := hue0_bounds rN gN bN
  unfold hueRaw
  split
  · constructor <;> linarith
  · constructor <;> [linarith; linarith]

/-- Rounding the hue keeps it in `[0, 360]` — and `360` really is attained,
see the counterexample for C4. -/
theorem jsRound_hueRaw_bounds (rN gN bN : ℚ) :
    0 ≤ jsRound (hueRaw rN gN bN) ∧ jsRound (hueRaw rN gN bN) ≤ 360 := by
  obtain ⟨h1, h2⟩ := hueRaw_bounds rN gN bN
  exact ⟨jsRound_nonneg h1, jsRound_le (by push_cast; linarith)⟩

/-- One-decimal rounding of a quantity in `[0, 1000]` lands in `[0, 100]`
after division by ten. -/
theorem round_div10_bounds {x : ℚ} (h0 : 0 ≤ x) (h1 : x ≤ 1000) :
    0 ≤ (jsRound x : ℚ) / 10 ∧ (jsRound x : ℚ) / 10 ≤ 100 := by
  have a : 0 ≤ jsRound x := jsRound_nonneg h0
  have b : jsRound x ≤ 1000 := jsRound_le_of_le (by exact_mod_cast h1)
  constructor
  · apply div_nonneg _ (by norm_num)
    exact_mod_cast a
  · rw [div_le_iff (by norm_num : (0:ℚ) < 10)]
    have : (jsRound x : ℚ) ≤ 1000 := by exact_mod_cast b
    linarith

theorem hsv_s_raw_bounds {rN gN bN : ℚ} (h0r : 0 ≤ rN) (h0g : 0 ≤ gN) (h0b : 0 ≤ bN) :
    0 ≤ (if maxC rN gN bN = 0 then (0:ℚ)
         else (maxC rN gN bN - minC rN gN bN) / maxC rN gN bN * 100) ∧
      (if maxC rN gN bN = 0 then (0:ℚ)
         else (maxC rN gN bN - minC rN gN bN) / maxC rN gN bN * 100) ≤ 100 := by
  split
  · norm_num
  case isFalse hne =>
    have hmx : 0 < maxC rN gN bN :=
      lt_of_le_of_ne (maxC_nonneg h0r) (Ne.symm hne)
    have hmn : 0 ≤ minC rN gN bN := minC_nonneg h0r h0g h0b
    have hδ : 0 ≤ maxC rN gN bN - minC rN gN bN :=
      sub_nonneg.mpr (minC_le_maxC rN gN bN)
    have hle : (maxC rN gN bN - minC rN gN bN) / maxC rN gN bN ≤ 1 := by
      rw [div_le_one hmx]; linarith
    have hge : 0 ≤ (maxC rN gN bN - minC rN gN bN) / maxC rN gN bN :=
      div_nonneg hδ (le_of_lt hmx)
    constructor <;> nlinarith

theorem hsl_s_raw_bounds {rN gN bN : ℚ}
    (h0r : 0 ≤ rN) (h0g : 0 ≤ gN) (h0b : 0 ≤ bN)
    (h1r : rN ≤ 1) (h1g : gN ≤ 1) (h1b : bN ≤ 1) :
    0 ≤ (if maxC rN gN bN - minC rN gN bN = 0 then (0:ℚ)
         else (maxC rN gN bN - minC rN gN bN) /
              (1 - |2 * ((maxC rN gN bN + minC rN gN bN) / 2) - 1|)) ∧
      (if maxC rN gN bN - minC rN gN bN = 0 then (0:ℚ)
         else (maxC rN gN bN - minC rN gN bN) /
              (1 - |2 * ((maxC rN gN bN + minC rN gN bN) / 2) - 1|)) ≤ 1 := by
  split
  · norm_num
  case isFalse hne =>
    have hδ0 : 0 ≤ maxC rN gN bN - minC rN gN bN :=
      sub_nonneg.mpr (minC_le_maxC rN gN bN)
    have hδ : 0 < maxC rN gN bN - minC rN gN bN := lt_of_le_of_ne hδ0 (Ne.symm hne)
    have hmn : 0 ≤ minC rN gN bN := minC_nonneg h0r h0g h0b
    have hmx : maxC rN gN bN ≤ 1 := maxC_le_one h1r h1g h1b
    have habs : |2 * ((maxC rN gN bN + minC rN gN bN) / 2) - 1|
        = |maxC rN gN bN + minC rN gN bN - 1| := by ring_nf
    rw [habs]
    have hD : maxC rN gN bN - minC rN gN bN ≤ 1 - |maxC rN gN bN + minC rN gN bN - 1| := by
      rcases abs_cases (maxC rN gN bN + minC rN gN bN - 1) with ⟨he, _⟩ | ⟨he, _⟩ <;>
        rw [he] <;> linarith
    have hDpos : 0 < 1 - |maxC rN gN bN + minC rN gN bN - 1| := lt_of_lt_of_le hδ hD
    constructor
    · exact div_nonneg (le_of_lt hδ) (le_of_lt hDpos)
    · rw [div_le_one hDpos]; exact hD

/-- Claim C4, counterexample: at the integer triple `(255, 0, 1)` the raw hue
is `360 - 60/255 ≈ 359.76`, and `Math.round` pushes it to exactly `360`, so
the hue returned by both `rgbToHSV` and `rgbToHSL` is *not* in `[0, 360)`. -/
theorem claim_C4_counterexample :
    (rgbToHSV 255 0 1).h = 360 ∧ ¬ (rgbToHSV 255 0 1).h < 360 ∧
      (rgbToHSL 255 0 1).h = 360 ∧ ¬ (rgbToHSL 255 0 1).h < 360 := by
  have h1 : (rgbToHSV 255 0 1).h = 360 := by
    norm_num [rgbToHSV, hueRaw, hue0, maxC, minC, jsRound, jsMod, jsTrunc]
  have h2 : (rgbToHSL 255 0 1).h = 360 := by
    norm_num [rgbToHSL, hueRaw, hue0, maxC, minC, jsRound, jsMod, jsTrunc]
  exact ⟨h1, by omega, h2, by omega⟩

/-- Claim C4 (amended): for every integer triple `(r,g,b)` in `[0,255]³` the
hue returned by `rgbToHSV` and by `rgbToHSL` lies in `[0,360]` — the upper
bound `360` is attained, see `claim_C4_counterexample` — and saturation,
value and lightness each lie in `[0,100]`. -/
theorem claim_C4_ranges (r g b : ℕ) (hr : r ≤ 255) (hg : g ≤ 255) (hb : b ≤ 255) :
    0 ≤ (rgbToHSV r g b).h ∧ (rgbToHSV r g b).h ≤ 360 ∧
    0 ≤ (rgbToHSV r g b).s ∧ (rgbToHSV r g b).s ≤ 100 ∧
    0 ≤ (rgbToHSV r g b).v ∧ (rgbToHSV r g b).v ≤ 100 ∧
    0 ≤ (rgbToHSL r g b).h ∧ (rgbToHSL r g b).h ≤ 360 ∧
    0 ≤ (rgbToHSL r g b).s ∧ (rgbToHSL r g b).s ≤ 100 ∧
    0 ≤ (rgbToHSL r g b).l ∧ (rgbToHSL r g b).l ≤ 100 := by
  have h0r : (0:ℚ) ≤ (r:ℚ)/255 := by positivity
  have h0g : (0:ℚ) ≤ (g:ℚ)/255 := by positivity
  have h0b : (0:ℚ) ≤ (b:ℚ)/255 := by positivity
  have h1r : (r:ℚ)/255 ≤ 1 := (div_le_one (by norm_num)).mpr (by exact_mod_cast hr)
  have h1g : (g:ℚ)/255 ≤ 1 := (div_le_one (by norm_num)).mpr (by exact_mod_cast hg)
  have h1b : (b:ℚ)/255 ≤ 1 := (div_le_one (by norm_num)).mpr (by exact_mod_cast hb)
  have hsvS := hsv_s_raw_bounds h0r h0g h0b
  have hslS := hsl_s_raw_bounds h0r h0g h0b h1r h1g h1b
  have hmx0 : (0:ℚ) ≤ maxC ((r:ℚ)/255) ((g:ℚ)/255) ((b:ℚ)/255) := maxC_nonneg h0r
  have hmx1 : maxC ((r:ℚ)/255) ((g:ℚ)/255) ((b:ℚ)/255) ≤ 1 := maxC_le_one h1r h1g h1b
  have hmn0 : (0:ℚ) ≤ minC ((r:ℚ)/255) ((g:ℚ)/255) ((b:ℚ)/255) := minC_nonneg h0r h0g h0b
  have hmn1 : minC ((r:ℚ)/255) ((g:ℚ)/255) ((b:ℚ)/255) ≤ 1 :=
    le_trans (minC_le_maxC _ _ _) hmx1
  simp only [rgbToHSV, rgbToHSL]
  refine ⟨(jsRound_hueRaw_bounds _ _ _).1, (jsRound_hueRaw_bounds _ _ _).2,
    (round_div10_bounds (by linarith [hsvS.1]) (by linarith [hsvS.2])).1,
    (round_div10_bounds (by linarith [hsvS.1]) (by linarith [hsvS.2])).2,
    (round_div10_bounds (by linarith) (by linarith)).1,
    (round_div10_bounds (by linarith) (by linarith)).2,
    (jsRound_hueRaw_bounds _ _ _).1, (jsRound_hueRaw_bounds _ _ _).2,
    (round_div10_bounds (by linarith [hslS.1]) (by linarith [hslS.2])).1,
    (round_div10_bounds (by linarith [hslS.1]) (by linarith [hslS.2])).2,
    (round_div10_bounds (by linarith) (by linarith)).1,
    (round_div10_bounds (by linarith) (by linarith)).2⟩

/-- Claim C4 witness: the amended range theorem applied at the concrete
triple `(255, 0, 1)`. -/
theorem claim_C4_ranges_witness :
    255 ≤ 255 ∧ 0 ≤ 255 ∧ 1 ≤ 255 ∧
      (0 ≤ (rgbToHSV 255 0 1).h ∧ (rgbToHSV 255 0 1).h ≤ 360 ∧
       0 ≤ (rgbToHSV 255 0 1).s ∧ (rgbToHSV 255 0 1).s ≤ 100 ∧
       0 ≤ (rgbToHSV 255 0 1).v ∧ (rgbToHSV 255 0 1).v ≤ 100 ∧
       0 ≤ (rgbToHSL 255 0 1).h ∧ (rgbToHSL 255 0 1).h ≤ 360 ∧
       0 ≤ (rgbToHSL 255 0 1).s ∧ (rgbToHSL 255 0 1).s ≤ 100 ∧
       0 ≤ (rgbToHSL 255 0 1).l ∧ (rgbToHSL 255 0 1).l ≤ 100) := by
  refine ⟨le_refl _, Nat.zero_le _, by norm_num, ?_⟩
  have := claim_C4_ranges 255 0 1 (by norm_num) (by norm_num) (by norm_num)
  simpa using this

/-! ### Color temperature facts (claims C5, C10) -/

theorem gammaCorrect_nonneg {pow24 : ℚ → ℚ} (hpow : ∀ x, 0 < x → 0 < pow24 x)
    {c : ℚ} (hc : 0 ≤ c) : 0 ≤ gammaCorrect pow24 c := by
  unfold gammaCorrect
  split
  case isTrue h =>
    have hnum : (0:ℚ) < c + 0.055 := by linarith
    exact le_of_lt (hpow _ (div_pos hnum (by norm_num)))
  case isFalse h => positivity

theorem gammaCorrect_pos {pow24 : ℚ → ℚ} (hpow : ∀ x, 0 < x → 0 < pow24 x)
    {c : ℚ} (hc : 0 < c) : 0 < gammaCorrect pow24 c := by
  unfold gammaCorrect
  split
  case isTrue h =>
    have hnum : (0:ℚ) < c + 0.055 := by linarith
    exact hpow _ (div_pos hnum (by norm_num))
  case isFalse h => positivity

/-- The XYZ sum of any non-black RGB triple is strictly positive: every
gamma-corrected channel is non-negative, at least one is strictly positive,
and all nine matrix coefficients are positive. -/
theorem xyzSum_pos {pow24 : ℚ → ℚ} (hpow : ∀ x, 0 < x → 0 < pow24 x)
    {r g b : ℚ} (hr : 0 ≤ r) (hg : 0 ≤ g) (hb : 0 ≤ b)
    (hne : ¬(r = 0 ∧ g = 0 ∧ b = 0)) :
    0 < (rgbToXYZ pow24 r g b).x + (rgbToXYZ pow24 r g b).y + (rgbToXYZ pow24 r g b).z := by
  have h0r : 0 ≤ gammaCorrect pow24 (r / 255) := gammaCorrect_nonneg hpow (by positivity)
  have h0g : 0 ≤ gammaCorrect pow24 (g / 255) := gammaCorrect_nonneg hpow (by positivity)
  have h0b : 0 ≤ gammaCorrect pow24 (b / 255) := gammaCorrect_nonneg hpow (by positivity)
  simp only [rgbToXYZ]
  have hcase : 0 < r ∨ 0 < g ∨ 0 < b := by
    by_contra hcon
    push_neg at hcon
    exact hne ⟨le_antisymm hcon.1 hr, le_antisymm hcon.2.1 hg, le_antisymm hcon.2.2 hb⟩
  rcases hcase with h | h | h
  · have : 0 < gammaCorrect pow24 (r / 255) := gammaCorrect_pos hpow (by positivity)
    nlinarith
  · have : 0 < gammaCorrect pow24 (g / 255) := gammaCorrect_pos hpow (by positivity)
    nlinarith
  · have : 0 < gammaCorrect pow24 (b / 255) := gammaCorrect_pos hpow (by positivity)
    nlinarith

theorem getColorTempCategory_ne_invalid (k : ℤ) : getColorTempCategory k ≠ "Invalid" := by
  unfold getColorTempCategory
  split
  · decide
  · split
    · decide
    · split <;> decide

/-- Claim C10: for every integer triple in `[0,255]³` other than black, the
XYZ sum computed by `rgbToXYZ` is strictly positive (so the chromaticity
division of `rgbToColorTemp` never divides by zero), and the `Invalid`
sentinel branch of `rgbToColorTemp` is not taken.  `pow24` stands for
`Math.pow(·, 2.4)`, assumed positive on positive arguments. -/
theorem claim_C10_xyz_sum_pos (pow24 : ℚ → ℚ) (hpow : ∀ x, 0 < x → 0 < pow24 x)
    (r g b : ℕ) (hr : r ≤ 255) (hg : g ≤ 255) (hb : b ≤ 255)
    (hne : ¬(r = 0 ∧ g = 0 ∧ b = 0)) :
    0 < (rgbToXYZ pow24 r g b).x + (rgbToXYZ pow24 r g b).y + (rgbToXYZ pow24 r g b).z ∧
      (rgbToColorTemp pow24 r g b).category ≠ "Invalid" := by
  have hneQ : ¬((r:ℚ) = 0 ∧ (g:ℚ) = 0 ∧ (b:ℚ) = 0) := by
    intro hcon
    exact hne ⟨by exact_mod_cast hcon.1, by exact_mod_cast hcon.2.1, by exact_mod_cast hcon.2.2⟩
  have hsum := xyzSum_pos hpow (by positivity) (by positivity) (by positivity) hneQ
  refine ⟨hsum, ?_⟩
  unfold rgbToColorTemp
  rw [if_neg hneQ, if_neg (by exact ne_of_gt hsum)]
  exact getColorTempCategory_ne_invalid _

/-- Claim C10 witness: the theorem applied at `(1, 0, 0)` with
`pow24 := id` (which is positive on positive arguments). -/
theorem claim_C10_xyz_sum_pos_witness :
    1 ≤ 255 ∧ 0 ≤ 255 ∧ ¬((1:ℕ) = 0 ∧ (0:ℕ) = 0 ∧ (0:ℕ) = 0) ∧
      (0 < (rgbToXYZ id 1 0 0).x + (rgbToXYZ id 1 0 0).y + (rgbToXYZ id 1 0 0).z ∧
        (rgbToColorTemp id 1 0 0).category ≠ "Invalid") :=
  ⟨by norm_num, by norm_num, by norm_num,
    claim_C10_xyz_sum_pos id (fun _ hx => hx) 1 0 0 (by norm_num) (by norm_num)
      (by norm_num) (by norm_num)⟩

/-- Claim C5: `rgbToColorTemp` special-cases pure black `(0,0,0)` to the
"no light source" sentinel (kelvin `0`, category `"None"`) before running
the formula, and for every other integer triple in `[0,255]³` the returned
kelvin value is clamped into `[1000, 25000]` (this covers the saturated
primaries `(255,0,0)`, `(0,255,0)`, `(0,0,255)`).  `pow24` stands for
`Math.pow(·, 2.4)`, assumed positive on positive arguments. -/
theorem claim_C5_colorTemp (pow24 : ℚ → ℚ) (hpow : ∀ x, 0 < x → 0 < pow24 x) :
    rgbToColorTemp pow24 0 0 0 =
        { kelvin := 0, description := "無光源", category := "None" } ∧
      ∀ r g b : ℕ, r ≤ 255 → g ≤ 255 → b ≤ 255 → ¬(r = 0 ∧ g = 0 ∧ b = 0) →
        1000 ≤ (rgbToColorTemp pow24 r g b).kelvin ∧
          (rgbToColorTemp pow24 r g b).kelvin ≤ 25000 := by
  constructor
  · unfold rgbToColorTemp
    rw [if_pos ⟨rfl, rfl, rfl⟩]
  · intro r g b hr hg hb hne
    have hneQ : ¬((r:ℚ) = 0 ∧ (g:ℚ) = 0 ∧ (b:ℚ) = 0) := by
      intro hcon
      exact hne ⟨by exact_mod_cast hcon.1, by exact_mod_cast hcon.2.1,
        by exact_mod_cast hcon.2.2⟩
    have hsum := xyzSum_pos hpow (r := (r:ℚ)) (g := (g:ℚ)) (b := (b:ℚ))
      (by positivity) (by positivity) (by positivity) hneQ
    unfold rgbToColorTemp
    rw [if_neg hneQ, if_neg (by exact ne_of_gt hsum)]
    constructor
    · exact le_max_left _ _
    · exact max_le (by norm_num) (min_le_left _ _)

/-- Claim C5 witness: the theorem applied with `pow24 := id`, plus its
`∀` part instantiated at the saturated primary `(255, 0, 0)`. -/
theorem claim_C5_colorTemp_witness :
    (rgbToColorTemp id 0 0 0 =
        { kelvin := 0, description := "無光源", category := "None" } ∧
      ∀ r g b : ℕ, r ≤ 255 → g ≤ 255 → b ≤ 255 → ¬(r = 0 ∧ g = 0 ∧ b = 0) →
        1000 ≤ (rgbToColorTemp id r g b).kelvin ∧
          (rgbToColorTemp id r g b).kelvin ≤ 25000) ∧
      1000 ≤ (rgbToColorTemp id 255 0 0).kelvin ∧
        (rgbToColorTemp id 255 0 0).kelvin ≤ 25000 := by
  have h := claim_C5_colorTemp id (fun _ hx => hx)
  exact ⟨h, h.2 255 0 0 (by norm_num) (by norm_num) (by norm_num) (by norm_num)⟩

/-! ## K-NN classifier (`knnClassifier.ts`)

`Math.sqrt` appears in `FeatureScaler.fit` and in `euclideanDistance`; as
explained in the header it is passed as the parameter `sqrtQ`.  The optional
`label` field of `TrainingDataPoint` (an image name carried around for
debugging, dropped from every result) is omitted. -/

structure TrainingDataPoint where
  features : List ℚ
  className : String
  deriving DecidableEq, Repr

structure NeighborEntry where
  className : String
  distance : ℚ
  deriving DecidableEq, Repr

structure ClassificationResult where
  className : String
  confidence : ℚ
  nearestNeighbors : List NeighborEntry
  deriving DecidableEq, Repr

/-- The private state of a `FeatureScaler` instance. -/
structure ScalerState where
  means : List ℚ
  stds : List ℚ
  fitted : Bool
  deriving DecidableEq, Repr

/-- A fresh `new FeatureScaler()`. -/
def scalerInit : ScalerState := { means := [], stds := [], fitted := false }

/-- `FeatureScaler.fit`: per-dimension mean and standard deviation (population
form, divided by `n`), with a zero std replaced by `1`; a no-op on empty
data (the source returns early without setting `fitted`). -/
def scalerFit (sqrtQ : ℚ → ℚ) (s : ScalerState) (data : List (List ℚ)) : ScalerState :=
  match data with
  | [] => s
  | d0 :: _ =>
    let n : ℚ := data.length
    let numFeatures := d0.length
    let means := (List.range numFeatures).map
      (fun i => ((data.map (fun row => row.getD i 0)).sum) / n)
    let stds := (List.range numFeatures).map
      (fun i => sqrtQ (((data.map (fun row => (row.getD i 0 - means.getD i 0) ^ 2)).sum) / n))
    { means := means, stds := stds.map (fun std => if std = 0 then 1 else std), fitted := true }

/-- `FeatureScaler.transform`: throws when not fitted, otherwise the
per-index Z-score `(value - means[index]) / stds[index]`. -/
def scalerTransform (s : ScalerState) (features : List ℚ) : Except String (List ℚ) :=
  if s.fitted = false then .error "Scaler not fitted. Call fit() first."
  else .ok (features.enum.map (fun p => (p.2 - s.means.getD p.1 0) / s.stds.getD p.1 0))

/-- The private state of a `KNNClassifier` instance. -/
structure KNNState where
  trainingData : List TrainingDataPoint
  scaler : ScalerState
  k : ℕ
  isTrained : Bool
  deriving DecidableEq, Repr

/-- `new KNNClassifier(k)` (the constructor default is `k = 3`). -/
def knnNew (k : ℕ) : KNNState :=
  { trainingData := [], scaler := scalerInit, k := k, isTrained := false }

/-- `KNNClassifier.train`: rejects empty data, fits the scaler on the raw
features, stores the standardized copies, flips to trained. -/
def train (sqrtQ : ℚ → ℚ) (st : KNNState) (data : List TrainingDataPoint) :
    Except String KNNState :=
  if data.length = 0 then .error "訓練資料不能為空"
  else do
    let scaler := scalerFit sqrtQ st.scaler (data.map (fun d => d.features))
    let td ← data.mapM (fun d => do
      let f ← scalerTransform scaler d.features
      pure { features := f, className := d.className : TrainingDataPoint })
    pure { trainingData := td, scaler := scaler, k := st.k, isTrained := true }

/-- `KNNClassifier.euclideanDistance`: throws on a dimension mismatch,
otherwise `sqrt` of the sum of squared coordinate differences. -/
def euclideanDistance (sqrtQ : ℚ → ℚ) (f1 f2 : List ℚ) : Except String ℚ :=
  if f1.length ≠ f2.length then .error "特徵維度不匹配"
  else .ok (sqrtQ (((List.range f1.length).map
    (fun i => (f1.getD i 0 - f2.getD i 0) ^ 2)).sum))

/-- One entry of the `distances` array built inside `predict`. -/
def neighborOf (sqrtQ : ℚ → ℚ) (scaled : List ℚ) (tp : TrainingDataPoint) :
    Except String NeighborEntry :=
  (euclideanDistance sqrtQ scaled tp.features).map
    (fun d => { className := tp.className, distance := d })

/-- `votes[className] = (votes[className] || 0) + weight` on the insertion
ordered association list that models the JS `votes` object. -/
def bumpVote : List (String × ℚ) → String → ℚ → List (String × ℚ)
  | [], c, w => [(c, w)]
  | (c', v) :: rest, c, w =>
    if c' = c then (c', v + w) :: rest else (c', v) :: bumpVote rest c w

/-- The comparator `(a, b) => a.distance - b.distance` (a stable ascending
sort on `distance`). -/
def distLE (a b : NeighborEntry) : Bool := decide (a.distance ≤ b.distance)

/-- The inverse-distance weight `1/(distance + 1e-6)` of one neighbor
(`1e-6` taken at its exact decimal value). -/
def voteWeight (n : NeighborEntry) : ℚ := 1 / (n.distance + 1/1000000)

/-- One iteration of the vote loop of `predict`: bump the winner's tally in
the `votes` object and add the weight to `totalWeight`. -/
def voteStep (acc : List (String × ℚ) × ℚ) (n : NeighborEntry) : List (String × ℚ) × ℚ :=
  (bumpVote acc.1 n.className (voteWeight n), acc.2 + voteWeight n)

/-- One iteration of the winner loop of `predict` over `Object.entries(votes)`:
strict improvement over the running maximum (initially `0` / `""`). -/
def pickWinner (acc : ℚ × String) (cv : String × ℚ) : ℚ × String :=
  if cv.2 > acc.1 then (cv.2, cv.1) else acc

/-- `KNNClassifier.predict`: throws when untrained; standardizes the query
with the stored scaler, computes the distance to every stored point, sorts
ascending, takes the first `k`, accumulates the inverse-distance-weighted
votes, and picks the first class whose tally strictly exceeds the running
maximum. -/
def predict (sqrtQ : ℚ → ℚ) (st : KNNState) (features : List ℚ) :
    Except String ClassificationResult :=
  if st.isTrained = false then .error "分類器尚未訓練。請先呼叫 train() 方法。"
  else do
    let scaled ← scalerTransform st.scaler features
    let distances ← st.trainingData.mapM (neighborOf sqrtQ scaled)
    let kNearest := (distances.mergeSort distLE).take st.k
    let vt := kNearest.foldl voteStep ([], 0)
    let mp := vt.1.foldl pickWinner (0, "")
    pure { className := mp.2, confidence := mp.1 / vt.2, nearestNeighbors := kNearest }

/-- The model record produced by `KNNClassifier.exportModel`. -/
structure KNNModel where
  trainingData : List TrainingDataPoint
  means : List ℚ
  stds : List ℚ
  k : ℕ
  deriving DecidableEq, Repr

/-- `KNNClassifier.exportModel`: copies of the (standardized) training data,
the scaler parameters and `k`. -/
def exportModel (st : KNNState) : KNNModel :=
  { trainingData := st.trainingData.map (fun d => { features := d.features, className := d.className })
    means := st.scaler.means
    stds := st.scaler.stds
    k := st.k }

/-- `KNNClassifier.importModel`: installs the model's training data, scaler
parameters (`setParams`, which sets `fitted`) and `k`, and flips to trained
without re-fitting anything. -/
def importModel (st : KNNState) (m : KNNModel) : KNNState :=
  { trainingData := m.trainingData.map (fun d => { features := d.features, className := d.className })
    scaler := { means := m.means, stds := m.stds, fitted := true }
    k := m.k
    isTrained := true }

/-- The total weighted vote a class receives from a neighbor list. -/
def classTally (ns : List NeighborEntry) (c : String) : ℚ :=
  ((ns.filter (fun n => n.className = c)).map voteWeight).sum

/-- The sum of all the neighbors' weights. -/
def totalTally (ns : List NeighborEntry) : ℚ := (ns.map voteWeight).sum

/-! ### Classifier error handling (claim C8) and model round-trip (claim C9) -/

/-- Claim C8: `train` on an empty array fails with the input error (so the
state is never replaced and the classifier stays untrained), and `predict`
on a classifier that was never trained or imported (`isTrained = false`)
fails synchronously with the state error instead of returning any label. -/
theorem claim_C8_train_empty_predict_untrained (sqrtQ : ℚ → ℚ) (st : KNNState)
    (q : List ℚ) (h : st.isTrained = false) :
    train sqrtQ st [] = .error "訓練資料不能為空" ∧
      predict sqrtQ st q = .error "分類器尚未訓練。請先呼叫 train() 方法。" := by
  constructor
  · rfl
  · unfold predict
    rw [h]
    rfl

/-- Claim C8 witness: a fresh `new KNNClassifier(3)` with a 7-dimensional
query. -/
theorem claim_C8_witness :
    (knnNew 3).isTrained = false ∧
      (train id (knnNew 3) [] = .error "訓練資料不能為空" ∧
        predict id (knnNew 3) [0, 0, 0, 0, 0, 0, 0] =
          .error "分類器尚未訓練。請先呼叫 train() 方法。") :=
  ⟨rfl, claim_C8_train_empty_predict_untrained id (knnNew 3) [0, 0, 0, 0, 0, 0, 0] rfl⟩

theorem map_copy_eq (l : List TrainingDataPoint) :
    l.map (fun d => { features := d.features, className := d.className : TrainingDataPoint }) = l := by
  have h : (fun d : TrainingDataPoint =>
      { features := d.features, className := d.className : TrainingDataPoint }) = fun d => d := by
    funext d
    rfl
  rw [h]
  exact List.map_id' l

/-- Claim C9: importing the exported model of a trained classifier `c` into a
fresh classifier reproduces `c` exactly — same stored (standardized) training
data, same scaler parameters (with `fitted` set directly, no re-fit), same
`k`, trained — so `predict` agrees with `c` on every query. -/
theorem claim_C9_export_import_roundtrip (sqrtQ : ℚ → ℚ) (c : KNNState)
    (ht : c.isTrained = true) (hf : c.scaler.fitted = true) (k0 : ℕ) :
    importModel (knnNew k0) (exportModel c) = c ∧
      (importModel (knnNew k0) (exportModel c)).isTrained = true ∧
      (importModel (knnNew k0) (exportModel c)).scaler.fitted = true ∧
      ∀ q, predict sqrtQ (importModel (knnNew k0) (exportModel c)) q = predict sqrtQ c q := by
  have he : importModel (knnNew k0) (exportModel c) = c := by
    obtain ⟨td, sc, k, tr⟩ := c
    obtain ⟨ms, ss, f⟩ := sc
    simp only [KNNState.isTrained] at ht
    simp only [KNNState.scaler, ScalerState.fitted] at hf
    subst ht
    subst hf
    unfold importModel exportModel
    simp [map_copy_eq]
  refine ⟨he, ?_, ?_, fun q => by rw [he]⟩
  · rw [he]; exact ht
  · rw [he]; exact hf

/-- Claim C9 witness: round-trip of a concrete trained two-point model. -/
theorem claim_C9_witness :
    (({ trainingData := [{ features := [1, 2], className := "A" }],
        scaler := { means := [0, 0], stds := [1, 1], fitted := true },
        k := 3, isTrained := true } : KNNState).isTrained = true) ∧
      (importModel (knnNew 5) (exportModel
          { trainingData := [{ features := [1, 2], className := "A" }],
            scaler := { means := [0, 0], stds := [1, 1], fitted := true },
            k := 3, isTrained := true }) =
        { trainingData := [{ features := [1, 2], className := "A" }],
          scaler := { means := [0, 0], stds := [1, 1], fitted := true },
          k := 3, isTrained := true } ∧
       (importModel (knnNew 5) (exportModel
          { trainingData := [{ features := [1, 2], className := "A" }],
            scaler := { means := [0, 0], stds := [1, 1], fitted := true },
            k := 3, isTrained := true })).isTrained = true ∧
       (importModel (knnNew 5) (exportModel
          { trainingData := [{ features := [1, 2], className := "A" }],
            scaler := { means := [0, 0], stds := [1, 1], fitted := true },
            k := 3, isTrained := true })).scaler.fitted = true ∧
       ∀ q, predict id (importModel (knnNew 5) (exportModel
          { trainingData := [{ features := [1, 2], className := "A" }],
            scaler := { means := [0, 0], stds := [1, 1], fitted := true },
            k := 3, isTrained := true })) q =
         predict id
          { trainingData := [{ features := [1, 2], className := "A" }],
            scaler := { means := [0, 0], stds := [1, 1], fitted := true },
            k := 3, isTrained := true } q) :=
  ⟨rfl, claim_C9_export_import_roundtrip id _ rfl rfl 5⟩

/-! ### Vote accounting for `predict` (claim C1) -/

/-- The tally currently recorded for class `c` in the association list that
models the JS `votes` object. -/
def voteVal (l : List (String × ℚ)) (c : String) : ℚ :=
  ((l.filter (fun p => p.1 = c)).map (fun p => p.2)).sum

theorem voteVal_nil (c : String) : voteVal [] c = 0 := rfl

theorem voteVal_cons (a : String) (v : ℚ) (rest : List (String × ℚ)) (c : String) :
    voteVal ((a, v) :: rest) c = (if a = c then v else 0) + voteVal rest c := by
  by_cases h : a = c <;> simp [voteVal, List.filter_cons, h]

theorem bumpVote_voteVal (l : List (String × ℚ)) (c c' : String) (w : ℚ) :
    voteVal (bumpVote l c w) c' = voteVal l c' + if c' = c then w else 0 := by
  induction l with
  | nil =>
    simp only [bumpVote, voteVal_cons, voteVal_nil, add_zero, zero_add]
    by_cases h : c' = c
    · simp [h]
    · have h2 : ¬ c = c' := fun hh => h hh.symm
      simp [h, h2]
  | cons p rest ih =>
    obtain ⟨a, v⟩ := p
    by_cases hac : a = c
    · subst hac
      rw [show bumpVote ((a, v) :: rest) a w = (a, v + w) :: rest from by
        simp [bumpVote]]
      rw [voteVal_cons, voteVal_cons]
      by_cases h : a = c'
      · subst h
        simp
        ring
      · have h2 : ¬ c' = a := fun hh => h hh.symm
        simp [h, h2]
    · rw [show bumpVote ((a, v) :: rest) c w = (a, v) :: bumpVote rest c w from by
        simp [bumpVote, hac]]
      rw [voteVal_cons, voteVal_cons, ih]
      ring

theorem bumpVote_keys (l : List (String × ℚ)) (c : String) (w : ℚ) :
    (bumpVote l c w).map (fun p => p.1) =
      if c ∈ l.map (fun p => p.1) then l.map (fun p => p.1)
      else l.map (fun p => p.1) ++ [c] := by
  induction l with
  | nil => simp [bumpVote]
  | cons p rest ih =>
    obtain ⟨a, v⟩ := p
    by_cases hac : a = c
    · subst hac
      simp [bumpVote]
    · rw [show bumpVote ((a, v) :: rest) c w = (a, v) :: bumpVote rest c w from by
        simp [bumpVote, hac]]
      have hmem : (c ∈ ((a, v) :: rest).map (fun p => p.1)) ↔
          (c ∈ rest.map (fun p => p.1)) := by
        simp only [List.map_cons, List.mem_cons]
        constructor
        · rintro (h | h)
          · exact absurd h.symm hac
          · exact h
        · exact Or.inr
      by_cases hm : c ∈ rest.map (fun p => p.1)
      · rw [if_pos (hmem.mpr hm)]
        simp only [List.map_cons]
        rw [ih, if_pos hm]
      · rw [if_neg (fun hh => hm (hmem.mp hh))]
        simp only [List.map_cons]
        rw [ih, if_neg hm]
        simp

theorem bumpVote_keys_nodup (l : List (String × ℚ)) (c : String) (w : ℚ)
    (h : (l.map (fun p => p.1)).Nodup) :
    ((bumpVote l c w).map (fun p => p.1)).Nodup := by
  rw [bumpVote_keys]
  split
  · exact h
  case isFalse hm =>
    rw [List.nodup_append]
    refine ⟨h, List.nodup_singleton _, ?_⟩
    intro a ha hb
    simp only [List.mem_singleton] at hb
    subst hb
    exact hm ha

theorem bumpVote_pos (l : List (String × ℚ)) (c : String) (w : ℚ)
    (hl : ∀ p ∈ l, 0 < p.2) (hw : 0 < w) :
    ∀ p ∈ bumpVote l c w, 0 < p.2 := by
  induction l with
  | nil =>
    intro p hp
    simp [bumpVote] at hp
    rw [hp]
    exact hw
  | cons q rest ih =>
    obtain ⟨a, v⟩ := q
    intro p hp
    by_cases hac : a = c
    · subst hac
      rw [show bumpVote ((a, v) :: rest) a w = (a, v + w) :: rest from by
        simp [bumpVote]] at hp
      rcases List.mem_cons.mp hp with h | h
      · rw [h]
        have := hl (a, v) (by simp)
        simp at this ⊢
        linarith
      · exact hl p (List.mem_cons_of_mem _ h)
    · rw [show bumpVote ((a, v) :: rest) c w = (a, v) :: bumpVote rest c w from by
        simp [bumpVote, hac]] at hp
      rcases List.mem_cons.mp hp with h | h
      · rw [h]
        exact hl (a, v) (by simp)
      · exact ih (fun r hr => hl r (List.mem_cons_of_mem _ hr)) p h

/-- If no entry has key `c`, `voteVal` is zero. -/
theorem voteVal_of_not_mem (l : List (String × ℚ)) {c : String}
    (h : c ∉ l.map (fun p => p.1)) : voteVal l c = 0 := by
  unfold voteVal
  have hfil : l.filter (fun p => p.1 = c) = [] := by
    rw [List.filter_eq_nil]
    intro p hp
    simp only [decide_eq_true_eq]
    intro hpc
    exact h (List.mem_map.mpr ⟨p, hp, hpc⟩)
  simp [hfil]

/-- In a votes list with distinct keys, an entry's stored value is exactly
`voteVal` of its key. -/
theorem voteVal_of_entry (l : List (String × ℚ)) (hnd : (l.map (fun p => p.1)).Nodup)
    {c : String} {v : ℚ} (hm : (c, v) ∈ l) : voteVal l c = v := by
  induction l with
  | nil => cases hm
  | cons q rest ih =>
    obtain ⟨a, w⟩ := q
    simp only [List.map_cons, List.nodup_cons] at hnd
    rw [voteVal_cons]
    rcases List.mem_cons.mp hm with h | h
    · have h1 : c = a := congrArg Prod.fst h
      have h2 : v = w := congrArg Prod.snd h
      subst h1
      subst h2
      have hrest : voteVal rest c = 0 := by
        apply voteVal_of_not_mem
        exact hnd.1
      rw [if_pos rfl, hrest, add_zero]
    · have hkey : ¬ a = c := by
        intro hac
        subst hac
        exact hnd.1 (List.mem_map.mpr ⟨(a, v), h, rfl⟩)
      rw [if_neg hkey, ih hnd.2 h, zero_add]

theorem classTally_cons (n : NeighborEntry) (ns : List NeighborEntry) (c : String) :
    classTally (n :: ns) c =
      (if n.className = c then voteWeight n else 0) + classTally ns c := by
  by_cases h : n.className = c <;> simp [classTally, List.filter, h]

theorem totalTally_cons (n : NeighborEntry) (ns : List NeighborEntry) :
    totalTally (n :: ns) = voteWeight n + totalTally ns := by
  simp [totalTally]

/-- The vote loop, run from any accumulator: `voteVal` grows by `classTally`
and the running total grows by `totalTally`. -/
theorem voteFold_spec (ns : List NeighborEntry) :
    ∀ acc : List (String × ℚ) × ℚ,
      (∀ c, voteVal (ns.foldl voteStep acc).1 c = voteVal acc.1 c + classTally ns c) ∧
        (ns.foldl voteStep acc).2 = acc.2 + totalTally ns := by
  induction ns with
  | nil => intro acc; simp [classTally, totalTally, voteVal]
  | cons n rest ih =>
    intro acc
    constructor
    · intro c
      have h1 := (ih (voteStep acc n)).1 c
      rw [List.foldl_cons, h1, voteStep, bumpVote_voteVal, classTally_cons]
      by_cases h : n.className = c
      · simp [h]
        ring
      · have h' : ¬ c = n.className := fun hc => h hc.symm
        simp [h, h']
    · have h2 := (ih (voteStep acc n)).2
      rw [List.foldl_cons, h2, voteStep, totalTally_cons]
      simp
      ring

/-- The vote loop preserves key distinctness and entry positivity. -/
theorem voteFold_invariants (ns : List NeighborEntry)
    (hw : ∀ n ∈ ns, 0 < voteWeight n) :
    ∀ acc : List (String × ℚ) × ℚ,
      (acc.1.map (fun p => p.1)).Nodup → (∀ p ∈ acc.1, 0 < p.2) →
        ((ns.foldl voteStep acc).1.map (fun p => p.1)).Nodup ∧
          (∀ p ∈ (ns.foldl voteStep acc).1, 0 < p.2) := by
  induction ns with
  | nil => intro acc h1 h2; exact ⟨h1, h2⟩
  | cons n rest ih =>
    intro acc h1 h2
    rw [List.foldl_cons]
    exact ih (fun m hm => hw m (List.mem_cons_of_mem _ hm)) (voteStep acc n)
      (bumpVote_keys_nodup _ _ _ h1)
      (bumpVote_pos _ _ _ h2 (hw n (List.mem_cons_self _ _)))

/-- The winner loop never loses the running maximum, and every entry's value
is bounded by the final maximum. -/
theorem pickWinner_fold_ge (l : List (String × ℚ)) :
    ∀ acc : ℚ × String,
      acc.1 ≤ (l.foldl pickWinner acc).1 ∧ ∀ p ∈ l, p.2 ≤ (l.foldl pickWinner acc).1 := by
  induction l with
  | nil => intro acc; exact ⟨le_refl _, by simp⟩
  | cons q rest ih =>
    intro acc
    rw [List.foldl_cons]
    obtain ⟨hge, hall⟩ := ih (pickWinner acc q)
    have hstep : acc.1 ≤ (pickWinner acc q).1 ∧ q.2 ≤ (pickWinner acc q).1 := by
      unfold pickWinner
      split
      · constructor
        · next h => exact le_of_lt h
        · exact le_refl _
      · next h => exact ⟨le_refl _, le_of_not_lt h⟩
    refine ⟨le_trans hstep.1 hge, ?_⟩
    intro p hp
    rcases List.mem_cons.mp hp with h | h
    · rw [h]; exact le_trans hstep.2 hge
    · exact hall p h

/-- The winner loop returns either the initial accumulator or the (value,
key) of some entry. -/
theorem pickWinner_fold_cases (l : List (String × ℚ)) :
    ∀ acc : ℚ × String,
      l.foldl pickWinner acc = acc ∨ ∃ p ∈ l, l.foldl pickWinner acc = (p.2, p.1) := by
  induction l with
  | nil => intro acc; exact Or.inl rfl
  | cons q rest ih =>
    intro acc
    rw [List.foldl_cons]
    rcases ih (pickWinner acc q) with h | ⟨p, hp, h⟩
    · rw [h]
      unfold pickWinner
      split
      · exact Or.inr ⟨q, List.mem_cons_self _ _, rfl⟩
      · exact Or.inl rfl
    · exact Or.inr ⟨p, List.mem_cons_of_mem _ hp, h⟩

/-- A class's tally never exceeds the total. -/
theorem classTally_le_totalTally (ns : List NeighborEntry)
    (hw : ∀ n ∈ ns, 0 < voteWeight n) (c : String) :
    classTally ns c ≤ totalTally ns := by
  induction ns with
  | nil => simp [classTally, totalTally]
  | cons n rest ih =>
    rw [classTally_cons, totalTally_cons]
    have hr := ih (fun m hm => hw m (List.mem_cons_of_mem _ hm))
    have hn := hw n (List.mem_cons_self _ _)
    split <;> linarith

theorem classTally_nonneg (ns : List NeighborEntry)
    (hw : ∀ n ∈ ns, 0 < voteWeight n) (c : String) : 0 ≤ classTally ns c := by
  induction ns with
  | nil => simp [classTally]
  | cons n rest ih =>
    rw [classTally_cons]
    have hr := ih (fun m hm => hw m (List.mem_cons_of_mem _ hm))
    have hn := hw n (List.mem_cons_self _ _)
    split <;> linarith

/-! ### Distances and sorting for `predict` (claim C1) -/

theorem mapM_ok_of_forall {α β : Type} {f : α → Except String β} :
    ∀ {l : List α}, (∀ x ∈ l, ∃ y, f x = .ok y) →
      ∃ ys, l.mapM f = .ok ys ∧ List.Forall₂ (fun x y => f x = .ok y) l ys := by
  intro l
  induction l with
  | nil => intro _; exact ⟨[], rfl, List.Forall₂.nil⟩
  | cons a as ih =>
    intro h
    obtain ⟨y, hy⟩ := h a (by simp)
    obtain ⟨ys, hys, hall⟩ := ih (fun x hx => h x (List.mem_cons_of_mem _ hx))
    refine ⟨y :: ys, ?_, List.Forall₂.cons hy hall⟩
    rw [List.mapM_cons, hy, hys]
    rfl

theorem forall₂_mem_right {α β : Type} {R : α → β → Prop} :
    ∀ {l : List α} {ys : List β}, List.Forall₂ R l ys → ∀ y ∈ ys, ∃ x ∈ l, R x y := by
  intro l ys h
  induction h with
  | nil => intro y hy; cases hy
  | cons hab hrest ih =>
    intro y hy
    rcases List.mem_cons.mp hy with h | h
    · subst h
      exact ⟨_, List.mem_cons_self _ _, hab⟩
    · obtain ⟨x, hx, hR⟩ := ih y h
      exact ⟨x, List.mem_cons_of_mem _ hx, hR⟩

theorem euclideanDistance_ok (sqrtQ : ℚ → ℚ) {f1 f2 : List ℚ}
    (h : f1.length = f2.length) :
    euclideanDistance sqrtQ f1 f2 =
      .ok (sqrtQ (((List.range f1.length).map
        (fun i => (f1.getD i 0 - f2.getD i 0) ^ 2)).sum)) := by
  unfold euclideanDistance
  rw [if_neg (by simp [h])]

theorem neighborOf_ok (sqrtQ : ℚ → ℚ) {scaled : List ℚ} {tp : TrainingDataPoint}
    (h : scaled.length = tp.features.length) :
    neighborOf sqrtQ scaled tp =
      .ok { className := tp.className
            distance := sqrtQ (((List.range scaled.length).map
              (fun i => (scaled.getD i 0 - tp.features.getD i 0) ^ 2)).sum) } := by
  unfold neighborOf
  rw [euclideanDistance_ok sqrtQ h]
  rfl

theorem neighborOf_ok_distance (sqrtQ : ℚ → ℚ)
    (hsqrt : ∀ x, 0 ≤ x → 0 ≤ sqrtQ x) {scaled : List ℚ} {tp : TrainingDataPoint}
    {y : NeighborEntry} (h : neighborOf sqrtQ scaled tp = .ok y) :
    0 ≤ y.distance ∧ y.className = tp.className := by
  unfold neighborOf euclideanDistance at h
  by_cases hl : scaled.length ≠ tp.features.length
  · rw [if_pos hl] at h
    simp [Except.map] at h
  · rw [if_neg hl] at h
    simp only [Except.map] at h
    have hy : y = { className := tp.className,
                    distance := sqrtQ (((List.range scaled.length).map
                      (fun i => (scaled.getD i 0 - tp.features.getD i 0) ^ 2)).sum) } := by
      cases h
      rfl
    subst hy
    refine ⟨hsqrt _ ?_, rfl⟩
    apply List.sum_nonneg
    intro x hx
    obtain ⟨i, _, hi⟩ := List.mem_map.mp hx
    rw [← hi]
    positivity

theorem scalerTransform_ok {s : ScalerState} (h : s.fitted = true) (features : List ℚ) :
    scalerTransform s features =
      .ok (features.enum.map (fun p => (p.2 - s.means.getD p.1 0) / s.stds.getD p.1 0)) := by
  unfold scalerTransform
  rw [h]
  rfl

theorem scalerTransform_length {s : ScalerState} {features scaled : List ℚ}
    (h : scalerTransform s features = .ok scaled) : scaled.length = features.length := by
  unfold scalerTransform at h
  split at h
  · cases h
  · cases h
    simp [List.enum_length]

theorem distLE_trans (a b c : NeighborEntry) :
    distLE a b = true → distLE b c = true → distLE a c = true := by
  simp only [distLE, decide_eq_true_eq]
  exact le_trans

theorem distLE_total (a b : NeighborEntry) : (distLE a b || distLE b a) = true := by
  simp only [distLE, Bool.or_eq_true, decide_eq_true_eq]
  exact le_total _ _

theorem mergeSort_head_min (l : List NeighborEntry) (n0 : NeighborEntry)
    (t : List NeighborEntry) (h : l.mergeSort distLE = n0 :: t) :
    ∀ m ∈ l, n0.distance ≤ m.distance := by
  intro m hm
  have hperm : (l.mergeSort distLE).Perm l := List.mergeSort_perm l distLE
  have hm' : m ∈ l.mergeSort distLE := hperm.symm.subset hm
  rw [h] at hm'
  rcases List.mem_cons.mp hm' with heq | hmem
  · rw [heq]
  · have hsorted := List.sorted_mergeSort distLE_trans distLE_total l
    rw [h] at hsorted
    have := (List.pairwise_cons.mp hsorted).1 m hmem
    simpa [distLE] using this

theorem totalTally_nonneg (ns : List NeighborEntry)
    (hw : ∀ n ∈ ns, 0 < voteWeight n) : 0 ≤ totalTally ns := by
  induction ns with
  | nil => simp [totalTally]
  | cons n rest ih =>
    rw [totalTally_cons]
    have hr := ih (fun m hm => hw m (List.mem_cons_of_mem _ hm))
    have hn := hw n (List.mem_cons_self _ _)
    linarith

/-- Claim C1: on a trained classifier (nonempty standardized training set,
fitted scaler, `k ≥ 1`) and a 7-dimensional query, `predict` succeeds; it
standardizes the query with the stored scaler, computes the distance to
every stored training point, sorts ascending and keeps the first `k`; the
returned class has the largest inverse-distance-weighted tally among the
`k` nearest neighbors, the confidence is that winning tally divided by the
total of all `k` tallies and lies in `(0, 1]`; and when `k = 1` the
confidence is exactly `1` and the returned class is the class of the
nearest neighbor. -/
theorem claim_C1_predict (sqrtQ : ℚ → ℚ) (hsqrt : ∀ x, 0 ≤ x → 0 ≤ sqrtQ x)
    (st : KNNState) (q : List ℚ)
    (htr : st.isTrained = true) (hfit : st.scaler.fitted = true)
    (hne : st.trainingData ≠ []) (hk : 1 ≤ st.k)
    (hq : q.length = 7) (hdim : ∀ p ∈ st.trainingData, p.features.length = 7) :
    ∃ scaled ds res,
      scalerTransform st.scaler q = Except.ok scaled ∧
      st.trainingData.mapM (neighborOf sqrtQ scaled) = Except.ok ds ∧
      predict sqrtQ st q = Except.ok res ∧
      res.nearestNeighbors = (ds.mergeSort distLE).take st.k ∧
      res.nearestNeighbors ≠ [] ∧
      res.confidence =
        classTally res.nearestNeighbors res.className / totalTally res.nearestNeighbors ∧
      (∀ c, classTally res.nearestNeighbors c ≤ classTally res.nearestNeighbors res.className) ∧
      0 < res.confidence ∧ res.confidence ≤ 1 ∧
      (st.k = 1 → res.confidence = 1 ∧ ∃ n0, res.nearestNeighbors = [n0] ∧
        res.className = n0.className ∧ ∀ m ∈ ds, n0.distance ≤ m.distance) := by
  have hscok := scalerTransform_ok hfit q
  set scaled : List ℚ :=
    q.enum.map (fun p => (p.2 - st.scaler.means.getD p.1 0) / st.scaler.stds.getD p.1 0)
    with hscaleddef
  have hslen : scaled.length = q.length := by
    rw [hscaleddef]
    simp [List.enum_length]
  have hall : ∀ p ∈ st.trainingData, ∃ y, neighborOf sqrtQ scaled p = Except.ok y := by
    intro p hp
    exact ⟨_, neighborOf_ok sqrtQ (by rw [hslen, hq, hdim p hp])⟩
  obtain ⟨ds, hds, hfa⟩ := mapM_ok_of_forall hall
  have hdsnn : ∀ y ∈ ds, 0 ≤ y.distance := by
    intro y hy
    obtain ⟨x, _, hok⟩ := forall₂_mem_right hfa y hy
    exact (neighborOf_ok_distance sqrtQ hsqrt hok).1
  have hdslen : ds.length = st.trainingData.length := hfa.length_eq.symm
  have hdsne : ds ≠ [] := by
    intro h0
    rw [h0] at hdslen
    exact hne (List.eq_nil_of_length_eq_zero hdslen.symm)
  set kN : List NeighborEntry := (ds.mergeSort distLE).take st.k with hkNdef
  have hperm : (ds.mergeSort distLE).Perm ds := List.mergeSort_perm ds distLE
  have hsortne : ds.mergeSort distLE ≠ [] := by
    intro h0
    apply hdsne
    have hl := hperm.length_eq
    rw [h0] at hl
    exact List.eq_nil_of_length_eq_zero hl.symm
  have hkNne : kN ≠ [] := by
    rw [hkNdef]
    intro h0
    rcases List.take_eq_nil_iff.mp h0 with h | h
    · omega
    · exact hsortne h
  have hkNsub : ∀ n ∈ kN, n ∈ ds := by
    intro n hn
    rw [hkNdef] at hn
    exact hperm.subset (List.take_subset _ _ hn)
  have hwpos : ∀ n ∈ kN, 0 < voteWeight n := by
    intro n hn
    have h0 : 0 ≤ n.distance := hdsnn n (hkNsub n hn)
    unfold voteWeight
    positivity
  set vt : List (String × ℚ) × ℚ := kN.foldl voteStep ([], 0) with hvtdef
  set mp : ℚ × String := vt.1.foldl pickWinner (0, "") with hmpdef
  have hvv : ∀ c, voteVal vt.1 c = classTally kN c := by
    intro c
    have := (voteFold_spec kN ([], 0)).1 c
    rw [hvtdef]
    simpa [voteVal_nil] using this
  have hvt2 : vt.2 = totalTally kN := by
    have := (voteFold_spec kN ([], 0)).2
    rw [hvtdef]
    simpa using this
  obtain ⟨hnd, hpos⟩ := voteFold_invariants kN hwpos ([], 0) (by simp) (by simp)
  rw [← hvtdef] at hnd hpos
  obtain ⟨n0, t, hkN_cons⟩ := List.exists_cons_of_ne_nil hkNne
  have hn0mem : n0 ∈ kN := by rw [hkN_cons]; exact List.mem_cons_self _ _
  have htallyn0 : voteWeight n0 ≤ classTally kN n0.className := by
    rw [hkN_cons, classTally_cons, if_pos rfl]
    have := classTally_nonneg t
      (fun m hm => hwpos m (by rw [hkN_cons]; exact List.mem_cons_of_mem _ hm))
      n0.className
    linarith
  have hn0pos : 0 < classTally kN n0.className :=
    lt_of_lt_of_le (hwpos n0 hn0mem) htallyn0
  have htotpos : 0 < totalTally kN := by
    rw [hkN_cons, totalTally_cons]
    have h1 := hwpos n0 hn0mem
    have h2 := totalTally_nonneg t
      (fun m hm => hwpos m (by rw [hkN_cons]; exact List.mem_cons_of_mem _ hm))
    linarith
  have hge := pickWinner_fold_ge vt.1 (0, "")
  rw [← hmpdef] at hge
  have hvoteVal_le : ∀ c, voteVal vt.1 c ≤ mp.1 := by
    intro c
    by_cases hc : c ∈ vt.1.map (fun p => p.1)
    · obtain ⟨p, hp, hpc⟩ := List.mem_map.mp hc
      have hv : voteVal vt.1 c = p.2 := by
        rw [← hpc]
        exact voteVal_of_entry vt.1 hnd hp
      rw [hv]
      exact hge.2 p hp
    · rw [voteVal_of_not_mem _ hc]
      exact le_trans (le_refl 0) hge.1
  have hwinner : mp.1 = classTally kN mp.2 ∧ 0 < mp.1 := by
    rcases pickWinner_fold_cases vt.1 (0, "") with hcase | ⟨p, hp, hcase⟩
    · exfalso
      have hval : voteVal vt.1 n0.className = classTally kN n0.className := hvv _
      have hnz : voteVal vt.1 n0.className ≠ 0 := by rw [hval]; exact ne_of_gt hn0pos
      have hkey : n0.className ∈ vt.1.map (fun p => p.1) := by
        by_contra hnm
        exact hnz (voteVal_of_not_mem _ hnm)
      obtain ⟨p, hp, hpc⟩ := List.mem_map.mp hkey
      have h1 : p.2 ≤ mp.1 := hge.2 p hp
      have h2 : mp.1 = 0 := by rw [hmpdef, hcase]
      have h3 : 0 < p.2 := hpos p hp
      linarith
    · have hmp_eq : mp = (p.2, p.1) := by rw [hmpdef, hcase]
      have h1 : mp.1 = p.2 := by rw [hmp_eq]
      have h2 : mp.2 = p.1 := by rw [hmp_eq]
      have hval : voteVal vt.1 p.1 = p.2 := voteVal_of_entry vt.1 hnd hp
      constructor
      · rw [h1, h2, ← hval, hvv]
      · rw [h1]
        exact hpos p hp
  have hpred : predict sqrtQ st q =
      Except.ok { className := mp.2, confidence := mp.1 / vt.2, nearestNeighbors := kN } := by
    unfold predict
    rw [if_neg (by simp [htr])]
    rw [hscok]
    simp only [Bind.bind, Except.bind, hds, pure, Except.pure]
  refine ⟨scaled, ds, _, hscok, hds, hpred, rfl, hkNne, ?_, ?_, ?_, ?_, ?_⟩
  · show mp.1 / vt.2 = classTally kN mp.2 / totalTally kN
    rw [hwinner.1, hvt2]
  · intro c
    show classTally kN c ≤ classTally kN mp.2
    rw [← hwinner.1, ← hvv c]
    exact hvoteVal_le c
  · show 0 < mp.1 / vt.2
    rw [hvt2]
    exact div_pos hwinner.2 htotpos
  · show mp.1 / vt.2 ≤ 1
    rw [hvt2, div_le_one htotpos, hwinner.1]
    exact classTally_le_totalTally kN hwpos mp.2
  · intro hk1
    obtain ⟨m0, t', hsort_cons⟩ := List.exists_cons_of_ne_nil hsortne
    have hkN1 : kN = [m0] := by
      rw [hkNdef, hk1, hsort_cons]
      rfl
    have hw0 : 0 < voteWeight m0 := hwpos m0 (by rw [hkN1]; exact List.mem_cons_self _ _)
    have hvt1 : vt = ([(m0.className, voteWeight m0)], voteWeight m0) := by
      rw [hvtdef, hkN1]
      simp [voteStep, bumpVote]
    have hmp1 : mp = (voteWeight m0, m0.className) := by
      rw [hmpdef, hvt1]
      simp [pickWinner, hw0]
    constructor
    · show mp.1 / vt.2 = 1
      rw [hmp1, hvt1]
      exact div_self (ne_of_gt hw0)
    · refine ⟨m0, hkN1, ?_, ?_⟩
      · show mp.2 = m0.className
        rw [hmp1]
      · exact mergeSort_head_min ds m0 t' hsort_cons

/-- A concrete trained classifier used to witness claim C1: two
(already standardized, identity scaler) training points with `k = 1`. -/
def exC1State : KNNState :=
  { trainingData := [{ features := [10, 10, 10, 0, 0, 0, 0], className := "A" },
                     { features := [200, 200, 200, 0, 0, 0, 0], className := "B" }]
    scaler := { means := [0, 0, 0, 0, 0, 0, 0], stds := [1, 1, 1, 1, 1, 1, 1], fitted := true }
    k := 1
    isTrained := true }

/-- A concrete 7-dimensional query used to witness claim C1. -/
def exC1Query : List ℚ := [12, 11, 9, 0, 0, 0, 0]

/-- Claim C1 witness: the predict theorem applied to `exC1State` (trained,
two points, `k = 1`) and the query `exC1Query`, with `sqrtQ := id` (which is
non-negative on non-negative arguments). -/
theorem claim_C1_predict_witness :
    exC1State.isTrained = true ∧ exC1State.trainingData ≠ [] ∧ 1 ≤ exC1State.k ∧
      exC1Query.length = 7 ∧
      (∃ scaled ds res,
        scalerTransform exC1State.scaler exC1Query = Except.ok scaled ∧
        exC1State.trainingData.mapM (neighborOf id scaled) = Except.ok ds ∧
        predict id exC1State exC1Query = Except.ok res ∧
        res.nearestNeighbors = (ds.mergeSort distLE).take exC1State.k ∧
        res.nearestNeighbors ≠ [] ∧
        res.confidence =
          classTally res.nearestNeighbors res.className / totalTally res.nearestNeighbors ∧
        (∀ c, classTally res.nearestNeighbors c ≤ classTally res.nearestNeighbors res.className) ∧
        0 < res.confidence ∧ res.confidence ≤ 1 ∧
        (exC1State.k = 1 → res.confidence = 1 ∧ ∃ n0, res.nearestNeighbors = [n0] ∧
          res.className = n0.className ∧ ∀ m ∈ ds, n0.distance ≤ m.distance)) :=
  ⟨rfl, by simp [exC1State], by decide, rfl,
    claim_C1_predict id (fun _ h => h) exC1State exC1Query rfl rfl
      (by simp [exC1State]) (by decide) rfl (by decide)⟩

/-! ## Pixel sampler and selection policy (`opencvProcessor.ts`, claim C2)

`sampleRegion` walks a rectangle of the RGBA byte buffer with a stride,
always accumulating every visited pixel into the unfiltered sums and
additionally accumulating the pixels that survive the near-white /
near-black / low-saturation exclusion into the filtered sums; the caller
then reports the filtered average when `filteredCount > 0`, else the
unfiltered average when `pixelCount > 0`, else no sample.  The byte buffer
is modelled as a total function `ℕ → ℕ` (index to byte), the claims only
concern in-bounds reads. -/

/-- The coordinates visited by `for (v = start; v < stop; v += step)`:
`start, start+step, …` while `< stop` (so `⌈(stop-start)/step⌉` of them). -/
def strideCoords (start stop step : ℕ) : List ℕ :=
  List.range' start ((stop - start + step - 1) / step) step

/-- The RGB triple read at `(x, y)`: bytes `(y*width+x)*4 + 0/1/2`. -/
def pixelAt (data : ℕ → ℕ) (width x y : ℕ) : ℕ × ℕ × ℕ :=
  (data ((y * width + x) * 4), data ((y * width + x) * 4 + 1), data ((y * width + x) * 4 + 2))

/-- The pixels visited by the double loop of `sampleRegion` (`y` outer,
`x` inner, both with stride `sampleStep`). -/
def visitedPixels (data : ℕ → ℕ) (width startX startY endX endY step : ℕ) :
    List (ℕ × ℕ × ℕ) :=
  (strideCoords startY endY step).flatMap
    (fun y => (strideCoords startX endX step).map (fun x => pixelAt data width x y))

/-- The eight running accumulators of `sampleRegion`. -/
structure SampleStats where
  totalR : ℕ
  totalG : ℕ
  totalB : ℕ
  pixelCount : ℕ
  filteredR : ℕ
  filteredG : ℕ
  filteredB : ℕ
  filteredCount : ℕ
  deriving DecidableEq, Repr

def zeroStats : SampleStats := ⟨0, 0, 0, 0, 0, 0, 0, 0⟩

/-- The exclusion test of `sampleRegion`: near-white (all channels
`≥ whiteThreshold`), near-black (all `≤ blackThreshold`) or low saturation
(`max − min < minSaturation`), with max/min computed by the source's
nested ternaries. -/
def excluded (wT bT mS : ℕ) (p : ℕ × ℕ × ℕ) : Bool :=
  let r := p.1
  let g := p.2.1
  let b := p.2.2
  let maxRGB := if r > g then (if r > b then r else b) else (if g > b then g else b)
  let minRGB := if r < g then (if r < b then r else b) else (if g < b then g else b)
  let saturation := maxRGB - minRGB
  (r ≥ wT && g ≥ wT && b ≥ wT) || (r ≤ bT && g ≤ bT && b ≤ bT) || (saturation < mS)

/-- One loop body iteration of `sampleRegion`: always bump the unfiltered
accumulators, and also the filtered ones when the pixel is not excluded. -/
def accumPixel (wT bT mS : ℕ) (st : SampleStats) (p : ℕ × ℕ × ℕ) : SampleStats :=
  let st1 : SampleStats :=
    { st with totalR := st.totalR + p.1, totalG := st.totalG + p.2.1,
              totalB := st.totalB + p.2.2, pixelCount := st.pixelCount + 1 }
  if excluded wT bT mS p then st1
  else
    { st1 with filteredR := st1.filteredR + p.1, filteredG := st1.filteredG + p.2.1,
               filteredB := st1.filteredB + p.2.2, filteredCount := st1.filteredCount + 1 }

/-- The `sampleRegion` closure of `processImageForRGB`, accumulating into the
ambient stats. -/
def sampleRegion (data : ℕ → ℕ) (width startX startY endX endY step wT bT mS : ℕ)
    (st : SampleStats) : SampleStats :=
  (visitedPixels data width startX startY endX endY step).foldl (accumPixel wT bT mS) st

/-- The selection policy that follows the sampling loops: filtered average if
`filteredCount > 0`, else unfiltered average if `pixelCount > 0`, else no
sample (`return null`). -/
def computeRGBResult (st : SampleStats) : Option (ℤ × ℤ × ℤ) :=
  let useFiltered := 0 < st.filteredCount
  if useFiltered ∨ 0 < st.pixelCount then
    let denom : ℚ := if useFiltered then st.filteredCount else st.pixelCount
    let sumR : ℚ := if useFiltered then st.filteredR else st.totalR
    let sumG : ℚ := if useFiltered then st.filteredG else st.totalG
    let sumB : ℚ := if useFiltered then st.filteredB else st.totalB
    some (jsRound (sumR / denom), jsRound (sumG / denom), jsRound (sumB / denom))
  else none

/-- Sum of the red channel over a pixel list. -/
def sumR (l : List (ℕ × ℕ × ℕ)) : ℕ := (l.map (fun p => p.1)).sum

def sumG (l : List (ℕ × ℕ × ℕ)) : ℕ := (l.map (fun p => p.2.1)).sum

def sumB (l : List (ℕ × ℕ × ℕ)) : ℕ := (l.map (fun p => p.2.2)).sum

/-- The pixels that pass (are not excluded by) the filter. -/
def passing (wT bT mS : ℕ) (l : List (ℕ × ℕ × ℕ)) : List (ℕ × ℕ × ℕ) :=
  l.filter (fun p => ! excluded wT bT mS p)

/-- The rounded channel averages of a pixel list. -/
def avgOf (l : List (ℕ × ℕ × ℕ)) : ℤ × ℤ × ℤ :=
  (jsRound ((sumR l : ℚ) / (l.length : ℚ)),
   jsRound ((sumG l : ℚ) / (l.length : ℚ)),
   jsRound ((sumB l : ℚ) / (l.length : ℚ)))

theorem sumR_cons (p : ℕ × ℕ × ℕ) (l : List (ℕ × ℕ × ℕ)) :
    sumR (p :: l) = p.1 + sumR l := by simp [sumR]

theorem sumG_cons (p : ℕ × ℕ × ℕ) (l : List (ℕ × ℕ × ℕ)) :
    sumG (p :: l) = p.2.1 + sumG l := by simp [sumG]

theorem sumB_cons (p : ℕ × ℕ × ℕ) (l : List (ℕ × ℕ × ℕ)) :
    sumB (p :: l) = p.2.2 + sumB l := by simp [sumB]

theorem sampleRegion_stats (wT bT mS : ℕ) (l : List (ℕ × ℕ × ℕ)) :
    ∀ init : SampleStats,
      l.foldl (accumPixel wT bT mS) init =
        { totalR := init.totalR + sumR l, totalG := init.totalG + sumG l,
          totalB := init.totalB + sumB l, pixelCount := init.pixelCount + l.length,
          filteredR := init.filteredR + sumR (passing wT bT mS l),
          filteredG := init.filteredG + sumG (passing wT bT mS l),
          filteredB := init.filteredB + sumB (passing wT bT mS l),
          filteredCount := init.filteredCount + (passing wT bT mS l).length } := by
  induction l with
  | nil =>
    intro init
    simp [sumR, sumG, sumB, passing]
  | cons p rest ih =>
    intro init
    rw [List.foldl_cons, ih]
    by_cases hex : excluded wT bT mS p = true
    · have hpass : passing wT bT mS (p :: rest) = passing wT bT mS rest := by
        simp [passing, List.filter_cons, hex]
      rw [hpass]
      simp only [accumPixel, hex, if_true]
      simp only [sumR_cons, sumG_cons, sumB_cons, List.length_cons]
      simp [Nat.add_assoc, Nat.add_comm, Nat.add_left_comm]
    · have hex' : excluded wT bT mS p = false := by simpa using hex
      have hpass : passing wT bT mS (p :: rest) = p :: passing wT bT mS rest := by
        simp [passing, List.filter_cons, hex']
      rw [hpass]
      simp only [accumPixel, hex', Bool.false_eq_true, if_false]
      simp only [sumR_cons, sumG_cons, sumB_cons, List.length_cons]
      simp [Nat.add_assoc, Nat.add_comm, Nat.add_left_comm]

/-- Claim C2: for every byte buffer and sampling rectangle, the sampler
reports the average of the pixels that pass the exclusion filter whenever at
least one passes, else the average of all visited pixels whenever at least
one pixel was visited, and returns no sample exactly when zero pixels were
visited — in particular an all-excluded (for instance all-black or
all-white) region with at least one visited pixel still yields a sample. -/
theorem claim_C2_sampler_selection (data : ℕ → ℕ)
    (width startX startY endX endY step wT bT mS : ℕ) :
    (computeRGBResult (sampleRegion data width startX startY endX endY step wT bT mS zeroStats)
        = none ↔ visitedPixels data width startX startY endX endY step = []) ∧
    (passing wT bT mS (visitedPixels data width startX startY endX endY step) ≠ [] →
      computeRGBResult (sampleRegion data width startX startY endX endY step wT bT mS zeroStats)
        = some (avgOf (passing wT bT mS (visitedPixels data width startX startY endX endY step)))) ∧
    (passing wT bT mS (visitedPixels data width startX startY endX endY step) = [] →
      visitedPixels data width startX startY endX endY step ≠ [] →
      computeRGBResult (sampleRegion data width startX startY endX endY step wT bT mS zeroStats)
        = some (avgOf (visitedPixels data width startX startY endX endY step))) := by
  set V := visitedPixels data width startX startY endX endY step with hV
  set P := passing wT bT mS V with hP
  have hst : sampleRegion data width startX startY endX endY step wT bT mS zeroStats =
      { totalR := sumR V, totalG := sumG V, totalB := sumB V, pixelCount := V.length,
        filteredR := sumR P, filteredG := sumG P, filteredB := sumB P,
        filteredCount := P.length } := by
    unfold sampleRegion
    rw [← hV, sampleRegion_stats]
    simp [zeroStats, hP]
  rw [hst]
  constructor
  · constructor
    · intro hnone
      by_contra hVne
      have hVpos : 0 < V.length := List.length_pos.mpr hVne
      unfold computeRGBResult at hnone
      rw [if_pos (Or.inr hVpos)] at hnone
      cases hnone
    · intro hVnil
      have hPnil : P = [] := by
        rw [hP, hVnil]
        rfl
      unfold computeRGBResult
      rw [if_neg]
      simp [hPnil, hVnil]
  · constructor
    · intro hPne
      have hPpos : 0 < P.length := List.length_pos.mpr hPne
      unfold computeRGBResult
      rw [if_pos (Or.inl hPpos)]
      simp only [hPpos, if_pos]
      rfl
    · intro hPnil hVne
      have hVpos : 0 < V.length := List.length_pos.mpr hVne
      have hPzero : P.length = 0 := by rw [hPnil]; rfl
      unfold computeRGBResult
      rw [if_pos (Or.inr hVpos)]
      simp only [hPzero, lt_irrefl, if_neg, avgOf]
      norm_num

/-- An all-zero (black) byte buffer. -/
def dataBlack : ℕ → ℕ := fun _ => 0

/-- Claim C2 witness: a 2×1 all-black sampling rectangle (thresholds
`white 240 / black 10 / minSaturation 10`) excludes every pixel yet still
returns the unfiltered average sample. -/
theorem claim_C2_witness :
    passing 240 10 10 (visitedPixels dataBlack 4 0 0 2 1 1) = [] ∧
      visitedPixels dataBlack 4 0 0 2 1 1 ≠ [] ∧
      computeRGBResult (sampleRegion dataBlack 4 0 0 2 1 1 240 10 10 zeroStats)
        = some (avgOf (visitedPixels dataBlack 4 0 0 2 1 1)) := by
  have h1 : passing 240 10 10 (visitedPixels dataBlack 4 0 0 2 1 1) = [] := by decide
  have h2 : visitedPixels dataBlack 4 0 0 2 1 1 ≠ [] := by decide
  exact ⟨h1, h2, (claim_C2_sampler_selection dataBlack 4 0 0 2 1 1 240 10 10).2.2 h1 h2⟩

/-! ## ROI resolver (`calculateROICanvas`, claim C3) -/

/-- A rectangle in display coordinates (JS numbers). -/
structure RectQ where
  x : ℚ
  y : ℚ
  width : ℚ
  height : ℚ
  deriving DecidableEq, Repr

/-- A resolved rectangle in buffer coordinates (`Math.round`/`Math.floor`
outputs). -/
structure RectZ where
  x : ℤ
  y : ℤ
  width : ℤ
  height : ℤ
  deriving DecidableEq, Repr

/-- The contain-fit display rectangle of the video inside the canvas's client
rect (letterbox/pillarbox branch on the two aspect ratios). -/
structure DispRect where
  w : ℚ
  h : ℚ
  x : ℚ
  y : ℚ
  deriving DecidableEq, Repr

def displayRect (canvasRectW canvasRectH : ℚ) (videoW videoH : ℕ) : DispRect :=
  if (videoW : ℚ) / (videoH : ℚ) > canvasRectW / canvasRectH then
    { w := canvasRectW, h := canvasRectW / ((videoW : ℚ) / (videoH : ℚ)), x := 0,
      y := (canvasRectH - canvasRectW / ((videoW : ℚ) / (videoH : ℚ))) / 2 }
  else
    { w := canvasRectH * ((videoW : ℚ) / (videoH : ℚ)), h := canvasRectH,
      x := (canvasRectW - canvasRectH * ((videoW : ℚ) / (videoH : ℚ))) / 2, y := 0 }

/-- The containment test `roiInDisplayArea` of `calculateROICanvas`. -/
def roiInDisplayArea (roi : RectQ) (d : DispRect) : Prop :=
  roi.x ≥ d.x ∧ roi.y ≥ d.y ∧ roi.x + roi.width ≤ d.x + d.w ∧
    roi.y + roi.height ≤ d.y + d.h

instance (roi : RectQ) (d : DispRect) : Decidable (roiInDisplayArea roi d) :=
  inferInstanceAs (Decidable (roi.x ≥ d.x ∧ roi.y ≥ d.y ∧ roi.x + roi.width ≤ d.x + d.w ∧
    roi.y + roi.height ≤ d.y + d.h))

/-- `calculateROICanvas`: if the requested ROI lies fully inside the
contain-fit display rectangle it is linearly rescaled into buffer
coordinates (rounded, with `max 0` floors on the origin and `max 1` floors
on the extent); otherwise the centered default square of side
`Math.floor(min(canvas.width, canvas.height) / 4)` is substituted. -/
def calculateROICanvas (roi : RectQ) (canvasRectW canvasRectH : ℚ)
    (canvasW canvasH videoW videoH : ℕ) : RectZ :=
  let d := displayRect canvasRectW canvasRectH videoW videoH
  if roiInDisplayArea roi d then
    let scaleX := (canvasW : ℚ) / d.w
    let scaleY := (canvasH : ℚ) / d.h
    { x := max 0 (jsRound ((roi.x - d.x) * scaleX)),
      y := max 0 (jsRound ((roi.y - d.y) * scaleY)),
      width := max 1 (jsRound (roi.width * scaleX)),
      height := max 1 (jsRound (roi.height * scaleY)) }
  else
    let defaultSize : ℚ := ((min canvasW canvasH : ℕ) : ℚ) / 4
    { x := jsFloor ((canvasW : ℚ) / 2 - defaultSize / 2),
      y := jsFloor ((canvasH : ℚ) / 2 - defaultSize / 2),
      width := jsFloor defaultSize, height := jsFloor defaultSize }

/-- Claim C3, counterexample: (a) a 10×10 video in a 10×10 client rect on a
10×10 buffer with the in-display ROI `(2.5, 0, 7.5, 5)` resolves to
`x = round 2.5 = 3`, `width = round 7.5 = 8`, so `x + width = 11 > 10`
sticks out of the buffer; (b) on a 2×2 buffer the default square has side
`floor(2/4) = 0`, so the resolved width is `0 < 1`. -/
theorem claim_C3_counterexample :
    ((calculateROICanvas ⟨5/2, 0, 15/2, 5⟩ 10 10 10 10 10 10).x +
        (calculateROICanvas ⟨5/2, 0, 15/2, 5⟩ 10 10 10 10 10 10).width = 11 ∧
      ¬ ((calculateROICanvas ⟨5/2, 0, 15/2, 5⟩ 10 10 10 10 10 10).x +
          (calculateROICanvas ⟨5/2, 0, 15/2, 5⟩ 10 10 10 10 10 10).width ≤ 10)) ∧
    ((calculateROICanvas ⟨-1, 0, 1, 1⟩ 10 10 2 2 10 10).width = 0 ∧
      ¬ (1 ≤ (calculateROICanvas ⟨-1, 0, 1, 1⟩ 10 10 2 2 10 10).width)) := by
  have hd : displayRect 10 10 10 10 = ⟨10, 10, 0, 0⟩ := by
    norm_num [displayRect]
  have hin : roiInDisplayArea ⟨5/2, 0, 15/2, 5⟩ ⟨10, 10, 0, 0⟩ := by
    norm_num [roiInDisplayArea]
  have hnin : ¬ roiInDisplayArea ⟨-1, 0, 1, 1⟩ ⟨10, 10, 0, 0⟩ := by
    norm_num [roiInDisplayArea]
  have hc1 : calculateROICanvas ⟨5/2, 0, 15/2, 5⟩ 10 10 10 10 10 10 = ⟨3, 0, 8, 5⟩ := by
    unfold calculateROICanvas
    rw [hd, if_pos hin]
    norm_num [jsRound]
  have hc2 : (calculateROICanvas ⟨-1, 0, 1, 1⟩ 10 10 2 2 10 10).width = 0 := by
    unfold calculateROICanvas
    rw [hd, if_neg hnin]
    norm_num [jsFloor]
  refine ⟨⟨by rw [hc1]; norm_num, by rw [hc1]; norm_num⟩, ⟨hc2, by rw [hc2]; norm_num⟩⟩

/-- Bounds for one axis of the in-display branch: non-negative origin, extent
at least one, and right edge at most one pixel past the buffer. -/
theorem inDisplay_axis_bounds {off len dOff dLen : ℚ} {W : ℕ} (hW : 0 < W)
    (hdl : 0 < dLen) (h1 : dOff ≤ off) (h3 : off + len ≤ dOff + dLen) (hlen : 0 < len) :
    0 ≤ max 0 (jsRound ((off - dOff) * ((W : ℚ) / dLen))) ∧
      1 ≤ max 1 (jsRound (len * ((W : ℚ) / dLen))) ∧
      max 0 (jsRound ((off - dOff) * ((W : ℚ) / dLen))) +
          max 1 (jsRound (len * ((W : ℚ) / dLen))) ≤ W + 1 := by
  have hWq : (0 : ℚ) < (W : ℚ) := by exact_mod_cast hW
  have hs : 0 < (W : ℚ) / dLen := div_pos hWq hdl
  have ha0 : 0 ≤ (off - dOff) * ((W : ℚ) / dLen) :=
    mul_nonneg (by linarith) (le_of_lt hs)
  have hb0 : 0 < len * ((W : ℚ) / dLen) := mul_pos hlen hs
  have hsum : (off - dOff) * ((W : ℚ) / dLen) + len * ((W : ℚ) / dLen) ≤ (W : ℚ) := by
    have hmul : ((off - dOff) + len) * ((W : ℚ) / dLen) ≤ dLen * ((W : ℚ) / dLen) :=
      mul_le_mul_of_nonneg_right (by linarith) (le_of_lt hs)
    have hcan : dLen * ((W : ℚ) / dLen) = (W : ℚ) := by
      field_simp
    calc (off - dOff) * ((W : ℚ) / dLen) + len * ((W : ℚ) / dLen)
        = ((off - dOff) + len) * ((W : ℚ) / dLen) := by ring
      _ ≤ dLen * ((W : ℚ) / dLen) := hmul
      _ = (W : ℚ) := hcan
  have hxmax : max 0 (jsRound ((off - dOff) * ((W : ℚ) / dLen)))
      = jsRound ((off - dOff) * ((W : ℚ) / dLen)) :=
    max_eq_right (jsRound_nonneg ha0)
  refine ⟨le_max_left _ _, le_max_left _ _, ?_⟩
  rw [hxmax]
  by_cases hb1 : 1 ≤ jsRound (len * ((W : ℚ) / dLen))
  · rw [max_eq_right hb1]
    have hfloora : (jsRound ((off - dOff) * ((W : ℚ) / dLen)) : ℚ)
        ≤ (off - dOff) * ((W : ℚ) / dLen) + 1/2 := by
      unfold jsRound
      have := Int.floor_le ((off - dOff) * ((W : ℚ) / dLen) + 1/2)
      linarith
    have hfloorb : (jsRound (len * ((W : ℚ) / dLen)) : ℚ)
        ≤ len * ((W : ℚ) / dLen) + 1/2 := by
      unfold jsRound
      have := Int.floor_le (len * ((W : ℚ) / dLen) + 1/2)
      linarith
    have : ((jsRound ((off - dOff) * ((W : ℚ) / dLen))
        + jsRound (len * ((W : ℚ) / dLen)) : ℤ) : ℚ) ≤ (W : ℚ) + 1 := by
      push_cast
      linarith
    exact_mod_cast this
  · push_neg at hb1
    rw [max_eq_left (by omega)]
    have hxle : jsRound ((off - dOff) * ((W : ℚ) / dLen)) ≤ (W : ℤ) := by
      apply jsRound_le
      push_cast
      linarith
    omega

/-- Bounds for one axis of the default branch: with `4 ≤ min(W, H)` the
centered default square is at least 1×1 and fully inside the buffer. -/
theorem default_axis_bounds (Wn mn : ℕ) (hm4 : 4 ≤ mn) (hmW : mn ≤ Wn) :
    0 ≤ jsFloor ((Wn : ℚ) / 2 - ((mn : ℚ) / 4) / 2) ∧
      1 ≤ jsFloor ((mn : ℚ) / 4) ∧
      jsFloor ((Wn : ℚ) / 2 - ((mn : ℚ) / 4) / 2) + jsFloor ((mn : ℚ) / 4) ≤ Wn + 1 := by
  have hm4q : (4 : ℚ) ≤ (mn : ℚ) := by exact_mod_cast hm4
  have hmWq : (mn : ℚ) ≤ (Wn : ℚ) := by exact_mod_cast hmW
  have h1 : 0 ≤ jsFloor ((Wn : ℚ) / 2 - ((mn : ℚ) / 4) / 2) := by
    unfold jsFloor
    apply Int.floor_nonneg.mpr
    linarith
  have h2 : 1 ≤ jsFloor ((mn : ℚ) / 4) := by
    unfold jsFloor
    rw [Int.le_floor]
    push_cast
    linarith
  refine ⟨h1, h2, ?_⟩
  have ha : (jsFloor ((Wn : ℚ) / 2 - ((mn : ℚ) / 4) / 2) : ℚ)
      ≤ (Wn : ℚ) / 2 - ((mn : ℚ) / 4) / 2 := Int.floor_le _
  have hb : (jsFloor ((mn : ℚ) / 4) : ℚ) ≤ (mn : ℚ) / 4 := Int.floor_le _
  have : ((jsFloor ((Wn : ℚ) / 2 - ((mn : ℚ) / 4) / 2) + jsFloor ((mn : ℚ) / 4) : ℤ) : ℚ)
      ≤ (Wn : ℚ) + 1 := by
    push_cast
    linarith
  exact_mod_cast this

theorem displayRect_pos (cRW cRH : ℚ) (videoW videoH : ℕ)
    (hcw : 0 < cRW) (hch : 0 < cRH) (hvw : 0 < videoW) (hvh : 0 < videoH) :
    0 < (displayRect cRW cRH videoW videoH).w ∧ 0 < (displayRect cRW cRH videoW videoH).h := by
  have h1 : (0 : ℚ) < (videoW : ℚ) := by exact_mod_cast hvw
  have h2 : (0 : ℚ) < (videoH : ℚ) := by exact_mod_cast hvh
  have hvar : (0 : ℚ) < (videoW : ℚ) / (videoH : ℚ) := by positivity
  unfold displayRect
  split
  · exact ⟨hcw, div_pos hcw hvar⟩
  · exact ⟨mul_pos hch hvar, hch⟩

/-- Claim C3 (amended): with positive client-rect and video dimensions, a
requested ROI of positive size, and a buffer whose smaller side is at least
4 px, the resolved rectangle has non-negative origin and width/height ≥ 1,
its right/bottom edges exceed the buffer bounds by at most one pixel
(`x + width ≤ bufferW + 1`, and similarly for `y`; the original claim's
full containment fails by that one pixel, see the counterexample), an
in-display ROI is linearly rescaled into buffer space, and an out-of-display
ROI is replaced by the centered default square of side
`floor(min(bufferW, bufferH)/4)`. -/
theorem claim_C3_resolver (roi : RectQ) (cRW cRH : ℚ) (canvasW canvasH videoW videoH : ℕ)
    (hcw : 0 < cRW) (hch : 0 < cRH) (hvw : 0 < videoW) (hvh : 0 < videoH)
    (hrw : 0 < roi.width) (hrh : 0 < roi.height) (hbuf : 4 ≤ min canvasW canvasH) :
    0 ≤ (calculateROICanvas roi cRW cRH canvasW canvasH videoW videoH).x ∧
    0 ≤ (calculateROICanvas roi cRW cRH canvasW canvasH videoW videoH).y ∧
    1 ≤ (calculateROICanvas roi cRW cRH canvasW canvasH videoW videoH).width ∧
    1 ≤ (calculateROICanvas roi cRW cRH canvasW canvasH videoW videoH).height ∧
    (calculateROICanvas roi cRW cRH canvasW canvasH videoW videoH).x +
        (calculateROICanvas roi cRW cRH canvasW canvasH videoW videoH).width ≤ canvasW + 1 ∧
    (calculateROICanvas roi cRW cRH canvasW canvasH videoW videoH).y +
        (calculateROICanvas roi cRW cRH canvasW canvasH videoW videoH).height ≤ canvasH + 1 ∧
    (roiInDisplayArea roi (displayRect cRW cRH videoW videoH) →
      calculateROICanvas roi cRW cRH canvasW canvasH videoW videoH =
        { x := max 0 (jsRound ((roi.x - (displayRect cRW cRH videoW videoH).x) *
                 ((canvasW : ℚ) / (displayRect cRW cRH videoW videoH).w))),
          y := max 0 (jsRound ((roi.y - (displayRect cRW cRH videoW videoH).y) *
                 ((canvasH : ℚ) / (displayRect cRW cRH videoW videoH).h))),
          width := max 1 (jsRound (roi.width *
                 ((canvasW : ℚ) / (displayRect cRW cRH videoW videoH).w))),
          height := max 1 (jsRound (roi.height *
                 ((canvasH : ℚ) / (displayRect cRW cRH videoW videoH).h))) }) ∧
    (¬ roiInDisplayArea roi (displayRect cRW cRH videoW videoH) →
      calculateROICanvas roi cRW cRH canvasW canvasH videoW videoH =
        { x := jsFloor ((canvasW : ℚ) / 2 - (((min canvasW canvasH : ℕ) : ℚ) / 4) / 2),
          y := jsFloor ((canvasH : ℚ) / 2 - (((min canvasW canvasH : ℕ) : ℚ) / 4) / 2),
          width := jsFloor (((min canvasW canvasH : ℕ) : ℚ) / 4),
          height := jsFloor (((min canvasW canvasH : ℕ) : ℚ) / 4) }) := by
  obtain ⟨hdw, hdh⟩ := displayRect_pos cRW cRH videoW videoH hcw hch hvw hvh
  have hW4 : 4 ≤ canvasW := le_trans hbuf (min_le_left _ _)
  have hH4 : 4 ≤ canvasH := le_trans hbuf (min_le_right _ _)
  by_cases hin : roiInDisplayArea roi (displayRect cRW cRH videoW videoH)
  · have hr : calculateROICanvas roi cRW cRH canvasW canvasH videoW videoH =
        { x := max 0 (jsRound ((roi.x - (displayRect cRW cRH videoW videoH).x) *
                 ((canvasW : ℚ) / (displayRect cRW cRH videoW videoH).w))),
          y := max 0 (jsRound ((roi.y - (displayRect cRW cRH videoW videoH).y) *
                 ((canvasH : ℚ) / (displayRect cRW cRH videoW videoH).h))),
          width := max 1 (jsRound (roi.width *
                 ((canvasW : ℚ) / (displayRect cRW cRH videoW videoH).w))),
          height := max 1 (jsRound (roi.height *
                 ((canvasH : ℚ) / (displayRect cRW cRH videoW videoH).h))) } := by
      simp only [calculateROICanvas]
      rw [if_pos hin]
    obtain ⟨hx0, hw1, hxw⟩ :=
      inDisplay_axis_bounds (W := canvasW) (by omega) hdw hin.1 hin.2.2.1 hrw
    obtain ⟨hy0, hh1, hyh⟩ :=
      inDisplay_axis_bounds (W := canvasH) (by omega) hdh hin.2.1 hin.2.2.2 hrh
    rw [hr]
    exact ⟨hx0, hy0, hw1, hh1, hxw, hyh, fun _ => rfl, fun hcon => absurd hin hcon⟩
  · have hr : calculateROICanvas roi cRW cRH canvasW canvasH videoW videoH =
        { x := jsFloor ((canvasW : ℚ) / 2 - (((min canvasW canvasH : ℕ) : ℚ) / 4) / 2),
          y := jsFloor ((canvasH : ℚ) / 2 - (((min canvasW canvasH : ℕ) : ℚ) / 4) / 2),
          width := jsFloor (((min canvasW canvasH : ℕ) : ℚ) / 4),
          height := jsFloor (((min canvasW canvasH : ℕ) : ℚ) / 4) } := by
      simp only [calculateROICanvas]
      rw [if_neg hin]
    obtain ⟨hx0, hw1, hxw⟩ :=
      default_axis_bounds canvasW (min canvasW canvasH) hbuf (min_le_left _ _)
    obtain ⟨hy0, hh1, hyh⟩ :=
      default_axis_bounds canvasH (min canvasW canvasH) hbuf (min_le_right _ _)
    rw [hr]
    exact ⟨hx0, hy0, hw1, hh1, hxw, hyh, fun hcon => absurd hcon hin, fun _ => rfl⟩

/-- Claim C3 witness: the amended resolver theorem applied to the ROI
`(1, 1, 2, 2)` in a 10×10 client rect with a 10×10 video and an 8×8
buffer. -/
theorem claim_C3_resolver_witness :
    (0 : ℚ) < 10 ∧ 0 < 10 ∧ 0 < (⟨1, 1, 2, 2⟩ : RectQ).width ∧ 4 ≤ min 8 8 ∧
    (0 ≤ (calculateROICanvas ⟨1, 1, 2, 2⟩ 10 10 8 8 10 10).x ∧
     0 ≤ (calculateROICanvas ⟨1, 1, 2, 2⟩ 10 10 8 8 10 10).y ∧
     1 ≤ (calculateROICanvas ⟨1, 1, 2, 2⟩ 10 10 8 8 10 10).width ∧
     1 ≤ (calculateROICanvas ⟨1, 1, 2, 2⟩ 10 10 8 8 10 10).height ∧
     (calculateROICanvas ⟨1, 1, 2, 2⟩ 10 10 8 8 10 10).x +
         (calculateROICanvas ⟨1, 1, 2, 2⟩ 10 10 8 8 10 10).width ≤ 8 + 1 ∧
     (calculateROICanvas ⟨1, 1, 2, 2⟩ 10 10 8 8 10 10).y +
         (calculateROICanvas ⟨1, 1, 2, 2⟩ 10 10 8 8 10 10).height ≤ 8 + 1 ∧
     (roiInDisplayArea ⟨1, 1, 2, 2⟩ (displayRect 10 10 10 10) →
       calculateROICanvas ⟨1, 1, 2, 2⟩ 10 10 8 8 10 10 =
         { x := max 0 (jsRound (((⟨1, 1, 2, 2⟩ : RectQ).x - (displayRect 10 10 10 10).x) *
                  ((8 : ℚ) / (displayRect 10 10 10 10).w))),
           y := max 0 (jsRound (((⟨1, 1, 2, 2⟩ : RectQ).y - (displayRect 10 10 10 10).y) *
                  ((8 : ℚ) / (displayRect 10 10 10 10).h))),
           width := max 1 (jsRound ((⟨1, 1, 2, 2⟩ : RectQ).width *
                  ((8 : ℚ) / (displayRect 10 10 10 10).w))),
           height := max 1 (jsRound ((⟨1, 1, 2, 2⟩ : RectQ).height *
                  ((8 : ℚ) / (displayRect 10 10 10 10).h))) }) ∧
     (¬ roiInDisplayArea ⟨1, 1, 2, 2⟩ (displayRect 10 10 10 10) →
       calculateROICanvas ⟨1, 1, 2, 2⟩ 10 10 8 8 10 10 =
         { x := jsFloor ((8 : ℚ) / 2 - (((min 8 8 : ℕ) : ℚ) / 4) / 2),
           y := jsFloor ((8 : ℚ) / 2 - (((min 8 8 : ℕ) : ℚ) / 4) / 2),
           width := jsFloor (((min 8 8 : ℕ) : ℚ) / 4),
           height := jsFloor (((min 8 8 : ℕ) : ℚ) / 4) })) :=
  ⟨by norm_num, by norm_num, by norm_num, by norm_num,
    claim_C3_resolver ⟨1, 1, 2, 2⟩ 10 10 8 8 10 10 (by norm_num) (by norm_num)
      (by norm_num) (by norm_num) (by norm_num) (by norm_num) (by norm_num)⟩

/-! ## Frame change gate (`detectFrameChange`, claim C6) -/

/-- One `ImageData`: flat RGBA byte list plus dimensions. -/
structure Frame where
  data : List ℕ
  width : ℕ
  height : ℕ
  deriving DecidableEq, Repr

/-- The byte indices visited by `for (i = 0; i < len; i += 40)`. -/
def sampledIndices (len : ℕ) : List ℕ := List.range' 0 ((len + 39) / 40) 40

/-- `|ΔR| + |ΔG| + |ΔB|` at byte index `i`. -/
def colorDiffAt (curr last : List ℕ) (i : ℕ) : ℕ :=
  ((curr.getD i 0 : ℤ) - (last.getD i 0 : ℤ)).natAbs +
    ((curr.getD (i + 1) 0 : ℤ) - (last.getD (i + 1) 0 : ℤ)).natAbs +
    ((curr.getD (i + 2) 0 : ℤ) - (last.getD (i + 2) 0 : ℤ)).natAbs

/-- The number of sampled pixels whose color difference exceeds 30. -/
def changedCount (curr last : List ℕ) : ℕ :=
  ((sampledIndices curr.length).filter (fun i => decide (30 < colorDiffAt curr last i))).length

/-- `detectFrameChange`: `true` when there is no previous frame; otherwise
`changedPixels / (totalPixels / 10) > threshold` with
`totalPixels = data.length / 4` (an exact rational, *not* the sampled-pixel
count). -/
def detectFrameChange (current : Frame) (lastFrame : Option Frame) (sensitivity : ℚ) : Bool :=
  match lastFrame with
  | none => true
  | some lastF =>
    let totalPixels : ℚ := (current.data.length : ℚ) / 4
    let changeRatio : ℚ := (changedCount current.data lastF.data : ℚ) / (totalPixels / 10)
    decide (changeRatio > sensitivity)

/-- Modelled from the spec: the claim's reading of the gate, with the change
ratio computed as `changedPixels / sampledPixels` over the *number of pixels
actually examined* (`⌈totalPixels/10⌉`).  Kept only to compare against the
source's `detectFrameChange`, which instead divides by the exact rational
`totalPixels / 10`. -/
def detectFrameChangeClaim (current : Frame) (lastFrame : Option Frame)
    (sensitivity : ℚ) : Bool :=
  match lastFrame with
  | none => true
  | some lastF =>
    let sampled : ℚ := ((sampledIndices current.data.length).length : ℚ)
    decide ((changedCount current.data lastF.data : ℚ) / sampled > sensitivity)

/-- Claim C6, counterexample: an 11-pixel frame (44 bytes) where exactly the
first of the two sampled pixels changed.  The code divides by
`totalPixels/10 = 1.1` giving ratio `10/11 > 0.7` (gate fires), while the
claim's `changed/sampled = 1/2 = 0.5 > 0.7` is false — so the gate is *not*
`changedPixels/sampledPixels > sensitivity`. -/
theorem claim_C6_counterexample :
    detectFrameChange ⟨40 :: List.replicate 43 0, 11, 1⟩
        (some ⟨List.replicate 44 0, 11, 1⟩) (7/10) = true ∧
      detectFrameChangeClaim ⟨40 :: List.replicate 43 0, 11, 1⟩
        (some ⟨List.replicate 44 0, 11, 1⟩) (7/10) = false := by
  have hc : changedCount (40 :: List.replicate 43 0) (List.replicate 44 0) = 1 := by decide
  have hlen : (40 :: List.replicate 43 0 : List ℕ).length = 44 := by decide
  have hs : ((sampledIndices 44).length : ℚ) = 2 := by norm_num [sampledIndices]
  constructor
  · simp only [detectFrameChange, hc, hlen, decide_eq_true_eq]
    norm_num
  · simp only [detectFrameChangeClaim, hc, hlen, hs, decide_eq_false_iff_not]
    norm_num

theorem changedCount_self (d : List ℕ) : changedCount d d = 0 := by
  unfold changedCount
  rw [List.length_eq_zero, List.filter_eq_nil]
  intro i _
  simp [colorDiffAt]

/-- Claim C6 (amended): the gate returns `true` on the first tick (no stored
previous buffer); against a stored buffer it returns `true` iff
`changedPixels / (totalPixels/10) > sensitivity`, where `changedPixels`
counts every 10th pixel whose `|ΔR|+|ΔG|+|ΔB|` exceeds 30 and
`totalPixels/10` is the exact rational (equal to the sampled-pixel count
only when the pixel count is a multiple of 10, see the counterexample);
consequently two identical consecutive frames yield `false` for any
non-negative sensitivity. -/
theorem claim_C6_frame_gate (current l : Frame) (sens : ℚ) (h0 : 0 ≤ sens) :
    detectFrameChange current none sens = true ∧
      (detectFrameChange current (some l) sens = true ↔
        (changedCount current.data l.data : ℚ) /
            (((current.data.length : ℚ) / 4) / 10) > sens) ∧
      detectFrameChange l (some l) sens = false := by
  refine ⟨rfl, ?_, ?_⟩
  · simp [detectFrameChange]
  · simp [detectFrameChange, changedCount_self]
    exact h0

/-- Claim C6 witness: the gate theorem at the default sensitivity `0.1`, a
one-pixel changed frame and its all-zero predecessor. -/
theorem claim_C6_witness :
    (0 : ℚ) ≤ 1/10 ∧
      (detectFrameChange ⟨[99, 0, 0, 0], 1, 1⟩ none (1/10) = true ∧
        (detectFrameChange ⟨[99, 0, 0, 0], 1, 1⟩ (some ⟨[0, 0, 0, 0], 1, 1⟩) (1/10) = true ↔
          (changedCount [99, 0, 0, 0] [0, 0, 0, 0] : ℚ) /
              ((([99, 0, 0, 0] : List ℕ).length : ℚ) / 4 / 10) > 1/10) ∧
        detectFrameChange ⟨[0, 0, 0, 0], 1, 1⟩ (some ⟨[0, 0, 0, 0], 1, 1⟩) (1/10) = false) :=
  ⟨by norm_num, claim_C6_frame_gate ⟨[99, 0, 0, 0], 1, 1⟩ ⟨[0, 0, 0, 0], 1, 1⟩ (1/10) (by norm_num)⟩

/-! ## Per-tick scheduling and the 500 ms throttle (`processFrame`, claim C7)

`processFrame` is modelled as a step function on the mutable refs it
touches (`lastProcessTime`, `lastFrameData`); per-tick inputs (wall clock,
camera readiness, frozen flag, the `roiJustMoved` force flag, the drawn
frame, the current ROI) arrive in a `TickInput`.  The heavy tail of the
function (ROI resolution, sampling, classification, drawing) is abstracted
into the `processed` outcome — the claim is about when that tail runs at
all.  The throttle `now - lastProcessTime < 500` is checked before the
change test, exactly as in the source. -/

/-- `detectROIChange`: like the whole-frame gate but restricted to the
clamped ROI rectangle, visiting every 2nd row/column and counting only
indices that are in range of both buffers; ratio `changed/total` (0 when no
pixel qualified). -/
def detectROIChange (current : Frame) (lastFrame : Option Frame) (roi : RectQ)
    (sensitivity : ℚ) : Bool :=
  match lastFrame with
  | none => true
  | some lastF =>
    let cw := current.width
    let ch := current.height
    let roiX := (max 0 (min (jsFloor roi.x) (cw : ℤ))).toNat
    let roiY := (max 0 (min (jsFloor roi.y) (ch : ℤ))).toNat
    let roiW := (max 1 (min (jsFloor roi.width) ((cw : ℤ) - (roiX : ℤ)))).toNat
    let roiH := (max 1 (min (jsFloor roi.height) ((ch : ℤ) - (roiY : ℤ)))).toNat
    let idxs := (strideCoords roiY (roiY + roiH) 2).flatMap
      (fun y => (strideCoords roiX (roiX + roiW) 2).map (fun x => (y * cw + x) * 4))
    let valid := idxs.filter
      (fun i => decide (i < current.data.length) && decide (i < lastF.data.length))
    let changed := (valid.filter (fun i => decide (30 < colorDiffAt current.data lastF.data i))).length
    let changeRatio : ℚ :=
      if 0 < valid.length then (changed : ℚ) / (valid.length : ℚ) else 0
    decide (changeRatio > sensitivity)

/-- The per-tick inputs read by `processFrame`. -/
structure TickInput where
  now : ℕ
  cameraReady : Bool
  frozen : Bool
  roiJustMoved : Bool
  frame : Frame
  roi : Option RectQ
  deriving Repr

/-- A dummy tick used as the `getD` default. -/
def tick0 : TickInput :=
  { now := 0, cameraReady := false, frozen := false, roiJustMoved := false,
    frame := ⟨[], 0, 0⟩, roi := none }

/-- How one `processFrame` invocation ended. -/
inductive TickOutcome where
  | notReady
  | frozenWait
  | throttled
  | gateDeclined
  | processed
  deriving DecidableEq, Repr

/-- The refs surviving between ticks. -/
structure ProcState where
  lastProcessTime : ℕ
  lastFrameData : Option Frame
  deriving Repr

/-- One `processFrame` invocation: camera check, frozen early return,
the 500 ms wall-clock throttle (which updates `lastProcessTime` when it
passes and is evaluated *before* any change detection), then the change
gate (forced by `roiJustMoved`), with the stored baseline replaced whenever
the gate is evaluated. -/
def processFrameStep (sens : ℚ) (st : ProcState) (t : TickInput) :
    ProcState × TickOutcome :=
  if t.cameraReady = false then (st, .notReady)
  else if t.frozen = true then (st, .frozenWait)
  else if t.now - st.lastProcessTime < 500 then (st, .throttled)
  else
    let st1 : ProcState := { st with lastProcessTime := t.now }
    let hasSignificantChange :=
      if t.frozen = true then true
      else match t.roi with
        | some r => detectROIChange t.frame st1.lastFrameData r sens
        | none => detectFrameChange t.frame st1.lastFrameData sens
    let st2 : ProcState := { st1 with lastFrameData := some t.frame }
    (st2, if t.roiJustMoved || hasSignificantChange then .processed else .gateDeclined)

/-- The tick loop: outcomes of a run over a list of tick inputs. -/
def runTicks (sens : ℚ) : ProcState → List TickInput → List TickOutcome
  | _, [] => []
  | st, t :: ts =>
    (processFrameStep sens st t).2 :: runTicks sens (processFrameStep sens st t).1 ts

theorem processFrameStep_throttled (sens : ℚ) (st : ProcState) (t : TickInput)
    (hready : t.cameraReady = true) (hfr : t.frozen = false)
    (hth : t.now - st.lastProcessTime < 500) :
    processFrameStep sens st t = (st, .throttled) := by
  simp [processFrameStep, hready, hfr, hth]

theorem processFrameStep_lpt_lb (sens : ℚ) (st : ProcState) (t : TickInput)
    {T : ℕ} (hT : T ≤ st.lastProcessTime) :
    T ≤ (processFrameStep sens st t).1.lastProcessTime := by
  unfold processFrameStep
  split_ifs with h1 h2 h3
  · exact hT
  · exact hT
  · exact hT
  · show T ≤ t.now
    omega

theorem processFrameStep_processed_lpt (sens : ℚ) (st : ProcState) (t : TickInput)
    (h : (processFrameStep sens st t).2 = .processed) :
    (processFrameStep sens st t).1.lastProcessTime = t.now := by
  by_cases h1 : t.cameraReady = false
  · exfalso
    unfold processFrameStep at h
    rw [if_pos h1] at h
    simp at h
  · by_cases h2 : t.frozen = true
    · exfalso
      unfold processFrameStep at h
      rw [if_neg h1, if_pos h2] at h
      simp at h
    · by_cases h3 : t.now - st.lastProcessTime < 500
      · exfalso
        unfold processFrameStep at h
        rw [if_neg h1, if_neg h2, if_pos h3] at h
        simp at h
      · unfold processFrameStep
        rw [if_neg h1, if_neg h2, if_neg h3]

theorem runTicks_length (sens : ℚ) :
    ∀ (ticks : List TickInput) (st : ProcState), (runTicks sens st ticks).length = ticks.length := by
  intro ticks
  induction ticks with
  | nil => intro st; rfl
  | cons t ts ih => intro st; simp [runTicks, ih]

/-- If the state's `lastProcessTime` is at least `T`, every later tick whose
clock is below `T + 500` (camera ready, not frozen) is throttled. -/
theorem runTicks_lpt_throttled (sens : ℚ) :
    ∀ (ticks : List TickInput) (st : ProcState) (T : ℕ), T ≤ st.lastProcessTime →
      ∀ j, j < ticks.length →
        (ticks.getD j tick0).now < T + 500 →
        (ticks.getD j tick0).cameraReady = true →
        (ticks.getD j tick0).frozen = false →
        (runTicks sens st ticks).getD j .notReady = .throttled := by
  intro ticks
  induction ticks with
  | nil =>
    intro st T _ j hj
    exact absurd hj (by simp)
  | cons t ts ih =>
    intro st T hT j hj hnow hready hfr
    cases j with
    | zero =>
      simp only [List.getD_cons_zero] at hnow hready hfr
      have hth : t.now - st.lastProcessTime < 500 := by omega
      simp [runTicks, processFrameStep_throttled sens st t hready hfr hth]
    | succ j' =>
      simp only [List.getD_cons_succ] at hnow hready hfr
      have hT' : T ≤ (processFrameStep sens st t).1.lastProcessTime :=
        processFrameStep_lpt_lb sens st t hT
      have hj' : j' < ts.length := by simpa using hj
      simpa [runTicks] using ih (processFrameStep sens st t).1 T hT' j' hj' hnow hready hfr

/-- After a processed tick, any later tick less than 500 ms behind it is
throttled. -/
theorem runTicks_processed_throttled (sens : ℚ) :
    ∀ (ticks : List TickInput) (st : ProcState) (i j : ℕ), i < j → j < ticks.length →
      (runTicks sens st ticks).getD i .notReady = .processed →
      (ticks.getD j tick0).now < (ticks.getD i tick0).now + 500 →
      (ticks.getD j tick0).cameraReady = true →
      (ticks.getD j tick0).frozen = false →
      (runTicks sens st ticks).getD j .notReady = .throttled := by
  intro ticks
  induction ticks with
  | nil =>
    intro st i j _ hj
    exact absurd hj (by simp)
  | cons t ts ih =>
    intro st i j hij hj hi hnow hready hfr
    cases i with
    | zero =>
      obtain ⟨j', rfl⟩ : ∃ j', j = j' + 1 := ⟨j - 1, by omega⟩
      simp only [List.getD_cons_zero, List.getD_cons_succ] at hi hnow hready hfr ⊢
      simp only [runTicks, List.getD_cons_zero] at hi
      have hlpt : (processFrameStep sens st t).1.lastProcessTime = t.now :=
        processFrameStep_processed_lpt sens st t hi
      have hj' : j' < ts.length := by simpa using hj
      simpa [runTicks] using
        runTicks_lpt_throttled sens ts (processFrameStep sens st t).1 t.now
          (le_of_eq hlpt.symm) j' hj' hnow hready hfr
    | succ i' =>
      obtain ⟨j', rfl⟩ : ∃ j', j = j' + 1 := ⟨j - 1, by omega⟩
      simp only [List.getD_cons_succ] at hi hnow hready hfr ⊢
      simp only [runTicks, List.getD_cons_succ] at hi ⊢
      exact ih (processFrameStep sens st t).1 i' j' (by omega) (by simpa using hj)
        hi hnow hready hfr

/-- Claim C7: the wall-clock throttle is evaluated before the change test —
on any tick (camera ready, not frozen) whose clock is less than 500 ms past
`lastProcessTime`, `processFrame` returns immediately with the state
unchanged (independently of the frame contents, so the gate, sampler and
classifier never run); and along any run, a tick arriving less than 500 ms
after a *processed* tick is throttled. -/
theorem claim_C7_throttle (sens : ℚ) :
    (∀ (st : ProcState) (t : TickInput), t.cameraReady = true → t.frozen = false →
      t.now - st.lastProcessTime < 500 → processFrameStep sens st t = (st, .throttled)) ∧
    (∀ (ticks : List TickInput) (st : ProcState) (i j : ℕ), i < j → j < ticks.length →
      (runTicks sens st ticks).getD i .notReady = .processed →
      (ticks.getD j tick0).now < (ticks.getD i tick0).now + 500 →
      (ticks.getD j tick0).cameraReady = true →
      (ticks.getD j tick0).frozen = false →
      (runTicks sens st ticks).getD j .notReady = .throttled) :=
  ⟨processFrameStep_throttled sens, runTicks_processed_throttled sens⟩

/-- Two concrete ticks for the claim C7 witness: the first is processed at
`t = 600` ms, the second arrives 200 ms later. -/
def tickA : TickInput :=
  { now := 600, cameraReady := true, frozen := false, roiJustMoved := false,
    frame := ⟨[], 0, 0⟩, roi := none }

def tickB : TickInput :=
  { now := 800, cameraReady := true, frozen := false, roiJustMoved := false,
    frame := ⟨[], 0, 0⟩, roi := none }

/-- Claim C7 witness: in the two-tick run the first tick is processed and the
second, arriving 200 ms < 500 ms later, is throttled by the trace theorem. -/
theorem claim_C7_witness :
    (runTicks (1/10) ⟨0, none⟩ [tickA, tickB]).getD 0 .notReady = .processed ∧
      ([tickA, tickB].getD 1 tick0).now < ([tickA, tickB].getD 0 tick0).now + 500 ∧
      (runTicks (1/10) ⟨0, none⟩ [tickA, tickB]).getD 1 .notReady = .throttled := by
  have h0 : (runTicks (1/10) ⟨0, none⟩ [tickA, tickB]).getD 0 .notReady = .processed := rfl
  refine ⟨h0, by decide, ?_⟩
  exact (claim_C7_throttle (1/10)).2 [tickA, tickB] ⟨0, none⟩ 0 1 (by norm_num) (by decide)
    h0 (by decide) (by decide) (by decide)

end RGBAnalyzer
